import Mathlib

/-!
Verification of the dwarf-writer debug-info synthesis engine.

This file gives a shallow embedding, in Lean, of the parts of the program
that the verified properties speak about:

* the canonical type model (`src/types.rs`): alias table, primitive sizes,
  the `DwarfType` term language;
* the disassembler-JSON ("anvill") type codes and their sizes
  (`src/anvill/mod.rs`, `src/anvill/types.rs`);
* the BSI type-string to type-term conversion (`src/str_bsi/mod.rs`);
* the type interner (`DwarfUnitRef::update_types` in `src/dwarf_unit.rs`
  together with `EntryRef::init_type` in `src/dwarf_entry.rs`), modelled as
  explicit state passing over a unit state that carries the allocated
  entries and the type map;
* the entry-update operations (`EntryRef::update_anvill_fn`,
  `EntryRef::update_str_fn`, `EntryRef::update_var`,
  `EntryRef::update_name` in `src/dwarf_entry.rs`), modelled as functions
  on an entry value; code paths that panic in the source
  (`expect`/`panic!`/failed lookups) are modelled by returning `none`;
* the symbol reconciliation loop (`ELF::update_binary` in `src/elf.rs`);
* the BSI ingestion filter (`StrBsiInput::data` / `StrBsiInput::types` in
  `src/str_bsi/mod.rs`);
* the hint-map construction (`AnvillInput::functions` / `variables` in
  `src/anvill/mod.rs`) and the symbol-delta collection
  (`Symbols::add_anvill` in `src/symbols.rs`).

Machine integers (`u64`) are modelled as `Nat`; the only operation the
embedded code performs that can observe the width is the string-to-`u64`
parse, which checks the `2 ^ 64` bound explicitly.  Rust `HashMap`s are
modelled as association lists with first-match lookup, insert-replaces
semantics and key-erasing removal.
-/

/-! ## Canonical type names (`src/types.rs`) -/

/-- Alias table of `impl From<TypeName> for CanonicalTypeName`
(`src/types.rs`), one pair per match arm pattern, in source order; the
catch-all arm passes the name through unchanged. -/
def canonTable : List (String × String) :=
  [("bool", "bool"), ("_Bool", "bool"),
   ("int8_t", "int8_t"), ("signed char", "int8_t"), ("i8", "int8_t"),
   ("uint8_t", "uint8_t"), ("unsigned char", "uint8_t"), ("u8", "uint8_t"),
   ("int16_t", "int16_t"), ("short", "int16_t"), ("i16", "int16_t"),
   ("uint16_t", "uint16_t"), ("unsigned short", "uint16_t"), ("u16", "uint16_t"),
   ("int32_t", "int32_t"), ("int", "int32_t"), ("i32", "int32_t"),
   ("uint32_t", "uint32_t"), ("unsigned", "uint32_t"), ("u32", "uint32_t"),
   ("int64_t", "int64_t"), ("long long", "int64_t"), ("i64", "int64_t"),
   ("uint64_t", "uint64_t"), ("unsigned long long", "uint64_t"), ("u64", "uint64_t"),
   ("int128_t", "int128_t"), ("__int128", "int128_t"), ("i128", "int128_t"),
   ("uint128_t", "uint128_t"), ("__uint128", "uint128_t"), ("u128", "uint128_t"),
   ("float16_t", "float16_t"), ("binary16", "float16_t"),
   ("float", "float"), ("f32", "float"),
   ("double", "double"), ("f64", "double"),
   ("long double", "long double"),
   ("__float128", "__float128"),
   ("void", "void")]

/-- `CanonicalTypeName::from` (`src/types.rs`): normalize an alias to the
canonical spelling; unrecognized names pass through unchanged. -/
def canonName (s : String) : String :=
  ((canonTable.find? (fun p => p.1 = s)).map Prod.snd).getD s

/-- Size table of `CanonicalTypeName::size` (`src/types.rs`), one pair per
match arm pattern, in source order.  Note that the source has no arm for
`long double` or `__float128`; those names fall to the catch-all `None`. -/
def sizeTable : List (String × Nat) :=
  [("bool", 1), ("_Bool", 1),
   ("int8_t", 1), ("signed char", 1), ("i8", 1),
   ("uint8_t", 1), ("unsigned char", 1), ("u8", 1),
   ("int16_t", 2), ("short", 2), ("i16", 2),
   ("uint16_t", 2), ("unsigned short", 2), ("u16", 2),
   ("int32_t", 4), ("int", 4), ("i32", 4),
   ("uint32_t", 4), ("unsigned", 4), ("u32", 4),
   ("int64_t", 8), ("long long", 8), ("i64", 8),
   ("uint64_t", 8), ("unsigned long long", 8), ("u64", 8),
   ("int128_t", 16), ("__int128", 16), ("i128", 16),
   ("uint128_t", 16), ("__uint128", 16), ("u128", 16),
   ("float16_t", 2), ("binary16", 2),
   ("float", 4), ("f32", 4),
   ("double", 8), ("f64", 8),
   ("void", 0)]

/-- `CanonicalTypeName::size` (`src/types.rs`). -/
def canonSize (s : String) : Option Nat :=
  (sizeTable.find? (fun p => p.1 = s)).map Prod.snd

/-! ## Type terms (`DwarfType` in `src/types.rs`) -/

/-- The `DwarfType` enum of `src/types.rs`.  `CanonicalTypeName` byte
sequences are modelled as `String`s. -/
inductive DwarfType where
  | primitive (name : String) (size : Option Nat)
  | pointer (pointee : DwarfType)
  | typedef (name : String) (refType : DwarfType)
  | array (innerType : DwarfType) (len : Option Nat)
  | struct (fields : List DwarfType)
  | function (returnType : DwarfType) (args : List DwarfType)

mutual

/-- Structural equality on type terms (the derived `PartialEq`/`Eq` of
`DwarfType` in `src/types.rs`). -/
def beqDT : DwarfType → DwarfType → Bool
  | .primitive n s, .primitive n' s' => n == n' && s == s'
  | .pointer p, .pointer q => beqDT p q
  | .typedef n r, .typedef n' r' => n == n' && beqDT r r'
  | .array t l, .array t' l' => beqDT t t' && l == l'
  | .struct fs, .struct gs => beqListDT fs gs
  | .function r as, .function r' bs => beqDT r r' && beqListDT as bs
  | _, _ => false

/-- Structural equality on lists of type terms. -/
def beqListDT : List DwarfType → List DwarfType → Bool
  | [], [] => true
  | x :: xs, y :: ys => beqDT x y && beqListDT xs ys
  | _, _ => false

end

mutual

theorem beqDT_rfl : ∀ a : DwarfType, beqDT a a = true
  | .primitive _ _ => by simp [beqDT]
  | .pointer p => by simp [beqDT, beqDT_rfl p]
  | .typedef _ r => by simp [beqDT, beqDT_rfl r]
  | .array t _ => by simp [beqDT, beqDT_rfl t]
  | .struct fs => by simp [beqDT, beqListDT_rfl fs]
  | .function r as => by simp [beqDT, beqDT_rfl r, beqListDT_rfl as]

theorem beqListDT_rfl : ∀ l : List DwarfType, beqListDT l l = true
  | [] => by simp [beqListDT]
  | x :: xs => by simp [beqListDT, beqDT_rfl x, beqListDT_rfl xs]

end

mutual

theorem beqDT_eq : ∀ a b : DwarfType, beqDT a b = true → a = b
  | .primitive _ _, .primitive _ _ => by
    intro h
    simp only [beqDT, Bool.and_eq_true, beq_iff_eq] at h
    simp [h.1, h.2]
  | .pointer p, .pointer q => by
    intro h
    have := beqDT_eq p q h
    simp [this]
  | .typedef n r, .typedef n' r' => by
    intro h
    simp only [beqDT, Bool.and_eq_true, beq_iff_eq] at h
    have := beqDT_eq r r' h.2
    simp [h.1, this]
  | .array t l, .array t' l' => by
    intro h
    simp only [beqDT, Bool.and_eq_true, beq_iff_eq] at h
    have := beqDT_eq t t' h.1
    simp [h.2, this]
  | .struct fs, .struct gs => by
    intro h
    have := beqListDT_eq fs gs h
    simp [this]
  | .function r as, .function r' bs => by
    intro h
    simp only [beqDT, Bool.and_eq_true] at h
    have h1 := beqDT_eq r r' h.1
    have h2 := beqListDT_eq as bs h.2
    simp [h1, h2]
  | .primitive _ _, .pointer _ => by intro h; simp [beqDT] at h
  | .primitive _ _, .typedef _ _ => by intro h; simp [beqDT] at h
  | .primitive _ _, .array _ _ => by intro h; simp [beqDT] at h
  | .primitive _ _, .struct _ => by intro h; simp [beqDT] at h
  | .primitive _ _, .function _ _ => by intro h; simp [beqDT] at h
  | .pointer _, .primitive _ _ => by intro h; simp [beqDT] at h
  | .pointer _, .typedef _ _ => by intro h; simp [beqDT] at h
  | .pointer _, .array _ _ => by intro h; simp [beqDT] at h
  | .pointer _, .struct _ => by intro h; simp [beqDT] at h
  | .pointer _, .function _ _ => by intro h; simp [beqDT] at h
  | .typedef _ _, .primitive _ _ => by intro h; simp [beqDT] at h
  | .typedef _ _, .pointer _ => by intro h; simp [beqDT] at h
  | .typedef _ _, .array _ _ => by intro h; simp [beqDT] at h
  | .typedef _ _, .struct _ => by intro h; simp [beqDT] at h
  | .typedef _ _, .function _ _ => by intro h; simp [beqDT] at h
  | .array _ _, .primitive _ _ => by intro h; simp [beqDT] at h
  | .array _ _, .pointer _ => by intro h; simp [beqDT] at h
  | .array _ _, .typedef _ _ => by intro h; simp [beqDT] at h
  | .array _ _, .struct _ => by intro h; simp [beqDT] at h
  | .array _ _, .function _ _ => by intro h; simp [beqDT] at h
  | .struct _, .primitive _ _ => by intro h; simp [beqDT] at h
  | .struct _, .pointer _ => by intro h; simp [beqDT] at h
  | .struct _, .typedef _ _ => by intro h; simp [beqDT] at h
  | .struct _, .array _ _ => by intro h; simp [beqDT] at h
  | .struct _, .function _ _ => by intro h; simp [beqDT] at h
  | .function _ _, .primitive _ _ => by intro h; simp [beqDT] at h
  | .function _ _, .pointer _ => by intro h; simp [beqDT] at h
  | .function _ _, .typedef _ _ => by intro h; simp [beqDT] at h
  | .function _ _, .array _ _ => by intro h; simp [beqDT] at h
  | .function _ _, .struct _ => by intro h; simp [beqDT] at h

theorem beqListDT_eq : ∀ as bs : List DwarfType, beqListDT as bs = true → as = bs
  | [], [] => by intro _; rfl
  | x :: xs, y :: ys => by
    intro h
    simp only [beqListDT, Bool.and_eq_true] at h
    have h1 := beqDT_eq x y h.1
    have h2 := beqListDT_eq xs ys h.2
    simp [h1, h2]
  | [], _ :: _ => by intro h; simp [beqListDT] at h
  | _ :: _, [] => by intro h; simp [beqListDT] at h

end

instance : DecidableEq DwarfType := fun a b =>
  if h : beqDT a b = true then .isTrue (beqDT_eq a b h)
  else .isFalse (fun he => h (he ▸ beqDT_rfl a))

/-- Size measure on type terms used only to justify recursion over the
sub-terms that `init_type` descends into (pointee, array element, function
return). -/
def tsize : DwarfType → Nat
  | .primitive _ _ => 1
  | .pointer p => tsize p + 1
  | .typedef _ r => tsize r + 1
  | .array t _ => tsize t + 1
  | .struct _ => 1
  | .function r _ => tsize r + 1

/-- The DWARF tags the engine uses, from `gimli::constants`. -/
inductive DwTag where
  | baseType
  | pointerType
  | typedefType
  | arrayType
  | structureType
  | subroutineType
  | subrangeType
  | subprogram
  | formalParameter
  | variableTag
  deriving DecidableEq

/-- `DwarfType::tag` (`src/types.rs`). -/
def typeTag : DwarfType → DwTag
  | .primitive _ _ => .baseType
  | .pointer _ => .pointerType
  | .typedef _ _ => .typedefType
  | .array _ _ => .arrayType
  | .struct _ => .structureType
  | .function _ _ => .subroutineType

/-- `DwarfType::new_primitive` (`src/types.rs`): the stored size defaults
to the canonical name's tabulated size. -/
def newPrimitive (name : String) (size : Option Nat) : DwarfType :=
  .primitive name (match size with
    | some s => some s
    | none => canonSize name)

/-- `DwarfType::void` (`src/types.rs`). -/
def voidType : DwarfType := .primitive "void" (some 0)

/-! ## Anvill types (`src/anvill/mod.rs`, `src/anvill/types.rs`) -/

/-- The `PrimitiveType` single-letter codes of `src/anvill/mod.rs`. -/
inductive PrimitiveType where
  | b | B | h | H | i | I | l | L | o | O | e | f | d | D | M | Q | v
  deriving DecidableEq

/-- The anvill `Type` enum of `src/anvill/mod.rs`. -/
inductive AnvillType where
  | bool
  | primitive (p : PrimitiveType)
  | pointer (referent : AnvillType)
  | array (innerType : AnvillType) (len : Nat)
  | vector (innerType : AnvillType) (len : Nat)
  | struct
  | function
  deriving DecidableEq

/-- `Type::size` (`src/anvill/types.rs`).  The catch-all arm is a
`todo!()` panic, modelled as `none`; it is reached for `M`, pointers,
arrays, vectors, structs and functions. -/
def anvillSize : AnvillType → Option Nat
  | .bool => some 1
  | .primitive .b => some 1
  | .primitive .B => some 1
  | .primitive .h => some 2
  | .primitive .H => some 2
  | .primitive .i => some 4
  | .primitive .I => some 4
  | .primitive .l => some 8
  | .primitive .L => some 8
  | .primitive .o => some 16
  | .primitive .O => some 16
  | .primitive .e => some 2
  | .primitive .f => some 4
  | .primitive .d => some 8
  | .primitive .D => some 12
  | .primitive .Q => some 16
  | .primitive .v => some 0
  | _ => none

/-- The canonical spelling of each anvill primitive code, following
`impl From<&Type> for &'static [u8]` (`src/anvill/types.rs`); the `M`
code (x86 MMX) falls in that impl's `todo!()` arm and is rendered here by
the `uint64_t` reading given in the source's own comment on the code. -/
def primitiveName : PrimitiveType → String
  | .b => "int8_t"
  | .B => "uint8_t"
  | .h => "int16_t"
  | .H => "uint16_t"
  | .i => "int32_t"
  | .I => "uint32_t"
  | .l => "int64_t"
  | .L => "uint64_t"
  | .o => "int128_t"
  | .O => "uint128_t"
  | .e => "float16_t"
  | .f => "float"
  | .d => "double"
  | .D => "long double"
  | .M => "uint64_t"
  | .Q => "__float128"
  | .v => "void"

/-- Modelled from the spec: the conversion from anvill type terms to
canonical `DwarfType` terms (`impl From<&anvill::Type> for DwarfType`) is
not among the sources under review — only its callers are
(`src/dwarf_entry.rs`, `src/anvill/mod.rs`).  Per the specification's
Parser A rules: single-letter primitives become primitives of known size,
`?` (bool) a bool primitive, stars become pointers, arrays and vectors
become array terms, `{...}` an opaque (anonymous) struct, `(...)` an
opaque function. -/
def anvillToDwarf : AnvillType → DwarfType
  | .bool => newPrimitive "bool" none
  | .primitive p => newPrimitive (primitiveName p) none
  | .pointer t => .pointer (anvillToDwarf t)
  | .array t n => .array (anvillToDwarf t) (some n)
  | .vector t n => .array (anvillToDwarf t) (some n)
  | .struct => .struct []
  | .function => .function voidType []

/-! ## Numeric string parsing (`u64::from_str`, `u64::from_str_radix`) -/

/-- Value of a hexadecimal digit (`from_str_radix(_, 16)` accepts both
cases). -/
def hexVal (c : Char) : Option Nat :=
  if '0' ≤ c ∧ c ≤ '9' then some (c.toNat - 48)
  else if 'a' ≤ c ∧ c ≤ 'f' then some (c.toNat - 87)
  else if 'A' ≤ c ∧ c ≤ 'F' then some (c.toNat - 55)
  else none

/-- Value of a decimal digit. -/
def decVal (c : Char) : Option Nat :=
  if '0' ≤ c ∧ c ≤ '9' then some (c.toNat - 48) else none

/-- Accumulate digit values left to right; `none` on the first character
that is not a digit of the base. -/
def parseDigits (dv : Char → Option Nat) (base : Nat) : List Char → Nat → Option Nat
  | [], acc => some acc
  | c :: cs, acc =>
    match dv c with
    | some d => parseDigits dv base cs (acc * base + d)
    | none => none

/-- Rust's `u64` string parse: an optional leading `+`, then a non-empty
digit string, rejecting values outside the `u64` range. -/
def parseU64 (dv : Char → Option Nat) (base : Nat) (s : List Char) : Option Nat :=
  let s := match s with
    | '+' :: r => r
    | r => r
  if s = [] then none
  else
    match parseDigits dv base s 0 with
    | some n => if n < 2 ^ 64 then some n else none
    | none => none

/-- Address-string parse of `StrBsiInput::data` (`src/str_bsi/mod.rs`): a
`0x`-stripped hexadecimal parse when the string starts with `0x`, a
decimal parse otherwise; the surrounding `unwrap_or_else` panics on
failure (`none` here). -/
def parseAddrStr (s : String) : Option Nat :=
  match s.data with
  | '0' :: 'x' :: rest => parseU64 hexVal 16 rest
  | _ => parseU64 decVal 10 s.data

/-! ## Hexadecimal formatting (Rust `format!("{:08x}", addr)`) -/

/-- Lowercase hexadecimal digit character. -/
def hexDigitChar (n : Nat) : Char :=
  if n < 10 then Char.ofNat (48 + n) else Char.ofNat (87 + n)

/-- Digits of `n` in base 16, most significant first.  The fuel is one
more than `n`, which strictly bounds the number of digits, so the fuel
never runs out; it only makes the recursion structural. -/
def hexDigitsAux : Nat → Nat → List Char
  | 0, _ => []
  | fuel + 1, n =>
    if n < 16 then [hexDigitChar n]
    else hexDigitsAux fuel (n / 16) ++ [hexDigitChar (n % 16)]

/-- Digits of `n` in base 16, most significant first. -/
def hexDigits (n : Nat) : List Char := hexDigitsAux (n + 1) n

/-- Rust's `format!("{:08x}", n)`: lowercase hexadecimal, zero-padded on
the left to at least eight digits. -/
def hexPad8 (n : Nat) : String :=
  String.mk (List.replicate (8 - (hexDigits n).length) '0' ++ hexDigits n)

/-! ## BSI type strings (`impl From<&Type> for DwarfType`, `src/str_bsi/mod.rs`) -/

/-- Worker for the BSI type-string conversion, operating on the reversed
character list so that the source's suffix stripping is head pattern
matching:

* a trailing `*` yields a pointer to the converted remainder;
* a trailing `[]` yields an array of unknown length;
* any other trailing `]` takes the digits back to the last `[` as the
  length (a failed length parse is a `panic!` in the source, `none`
  here), and the remainder — with every further `[` removed, as the
  source's `split('[')`/`join("")` does — as the element type;
* anything else is a primitive with the canonicalized name and the size
  the canonical table gives it (`DwarfType::new_primitive` with `None`).
-/
theorem filter_tail_drop_length_le (q : Char → Bool) (n : Nat) (l : List Char) :
    (((l.drop n).tail).filter q).length ≤ l.length := by
  have h1 := List.length_filter_le q ((l.drop n).tail)
  have h2 : ((l.drop n).tail).length ≤ (l.drop n).length := by
    cases h : l.drop n <;> simp
  have h3 : (l.drop n).length ≤ l.length := by
    simp [List.length_drop]
  omega

def strTyRev : List Char → Option DwarfType
  | '*' :: rest => (strTyRev rest).map .pointer
  | ']' :: '[' :: rest => (strTyRev rest).map (fun t => .array t none)
  | ']' :: rest =>
    let digitsRev := rest.takeWhile (fun c => c ≠ '[')
    let rem := rest.drop digitsRev.length
    match parseU64 decVal 10 digitsRev.reverse with
    | some n => (strTyRev (rem.tail.filter (fun c => c ≠ '['))).map (fun t => .array t (some n))
    | none => none
  | cs => some (newPrimitive (canonName (String.mk cs.reverse)) none)
termination_by cs => cs.length
decreasing_by
  all_goals simp only [List.length_cons]
  all_goals first
    | omega
    | (have h := filter_tail_drop_length_le (fun c : Char => decide (c ≠ '['))
        ((List.takeWhile (fun c : Char => decide (c ≠ '[')) rest).length) rest
       omega)

/-- `impl From<&Type> for DwarfType` (`src/str_bsi/mod.rs`), for the BSI
string type expressions; `none` models the source's `panic!` on an
unparseable array length. -/
def strToDwarf (s : String) : Option DwarfType := strTyRev s.data.reverse

/-! ## Attributes and location expressions -/

/-- The DWARF attribute names the engine writes. -/
inductive DwAt where
  | name
  | byteSize
  | typeRef
  | lowPc
  | location
  | prototyped
  | noreturn
  | returnAddr
  | declFile
  | declLine
  | upperBound
  deriving DecidableEq

/-- A `gimli::write::Expression` as built by the engine: one opcode. -/
inductive LocExpr where
  | reg (r : Nat)
  | breg (r : Nat) (offset : Int)
  | addr (a : Nat)
  deriving DecidableEq

/-- The `gimli::write::AttributeValue` variants the engine writes or
reads. -/
inductive AttrVal where
  | str (s : String)
  | udata (n : Nat)
  | data8 (n : Nat)
  | addr (a : Nat)
  | unitRef (i : Nat)
  | flag (b : Bool)
  | exprloc (e : LocExpr)
  deriving DecidableEq

/-- The anvill `TaggedLocation` (`src/anvill/mod.rs`); registers are
modelled by their DWARF register numbers. -/
inductive TaggedLocation where
  | register (r : Nat)
  | memory (register : Nat) (offset : Int)
  deriving DecidableEq

/-- `impl From<&anvill::TaggedLocation> for AttributeValue`
(`src/dwarf_attr.rs`): `op_reg` for a register, `op_breg` for
memory-with-offset, wrapped as an `Exprloc`. -/
def locToAttr : TaggedLocation → AttrVal
  | .register r => .exprloc (.reg r)
  | .memory r o => .exprloc (.breg r o)

/-- `addr_to_attr` (`src/dwarf_attr.rs`): an `op_addr` expression. -/
def addrToAttr (a : Nat) : AttrVal := .exprloc (.addr a)

/-- `low_pc_to_u64` (`src/dwarf_attr.rs`); the unhandled-variant `panic!`
is `none`. -/
def lowPcToU64 : AttrVal → Option Nat
  | .addr a => some a
  | .udata a => some a
  | _ => none

/-- First-match lookup in an attribute list (an entry's attribute map). -/
def getA : List (DwAt × AttrVal) → DwAt → Option AttrVal
  | [], _ => none
  | (k, v) :: r, a => if k = a then some v else getA r a

/-- Attribute write (`DebuggingInformationEntry::set`): the new pair
shadows any earlier pair with the same key under `getA`. -/
def setA (attrs : List (DwAt × AttrVal)) (k : DwAt) (v : AttrVal) : List (DwAt × AttrVal) :=
  (k, v) :: attrs

/-! ## The unit state and the type interner
(`DwarfUnitRef::update_types`, `EntryRef::init_type`) -/

/-- A debug entry of the unit, as the interner sees it: its stable id, its
tag, the type term it was allocated for (`none` for the subrange children
of array entries, which do not encode a term of their own), and its
attributes.  The `term` field records the argument the engine passed when
it allocated the entry; `init_type` fills the attributes from exactly that
term, so it is the faithful record of which term the entry represents. -/
structure TEntry where
  id : Nat
  tag : DwTag
  term : Option DwarfType
  attrs : List (DwAt × AttrVal)
  deriving DecidableEq

/-- The state `update_types`/`init_type` thread through the unit: the next
fresh entry id, the allocated entries, and the type map. -/
structure IState where
  nextId : Nat
  entries : List TEntry
  typeMap : List (DwarfType × Nat)
  deriving DecidableEq

/-- `HashMap::get` on the type map. -/
def lookupTM : List (DwarfType × Nat) → DwarfType → Option Nat
  | [], _ => none
  | (k, v) :: r, t => if k = t then some v else lookupTM r t

/-- Number of entries that represent the term `t`. -/
def countTermL : List TEntry → DwarfType → Nat
  | [], _ => 0
  | e :: r, t => (if e.term = some t then 1 else 0) + countTermL r t

/-- Number of entries of the unit that represent the term `t`. -/
def countTerm (st : IState) (t : DwarfType) : Nat := countTermL st.entries t

/-- `Unit::add`: allocate a fresh child entry with the given tag (and, in
this model, the term it is being allocated for). -/
def addEntry (st : IState) (tag : DwTag) (term : Option DwarfType) : IState :=
  { st with
      nextId := st.nextId + 1,
      entries := st.entries ++ [⟨st.nextId, tag, term, []⟩] }

/-- `EntryRef::set` on the entry with id `i`. -/
def setAttr (st : IState) (i : Nat) (k : DwAt) (v : AttrVal) : IState :=
  { st with
      entries := st.entries.map (fun e =>
        if e.id = i then { e with attrs := setA e.attrs k v } else e) }

/-- First entry with id `i`. -/
def findE (st : IState) (i : Nat) : Option TEntry :=
  st.entries.find? (fun e => e.id = i)

/-- Attribute `k` of the entry with id `i`. -/
def getAttrOf (st : IState) (i : Nat) (k : DwAt) : Option AttrVal :=
  (findE st i).bind (fun e => getA e.attrs k)

/-- `EntryRef::init_type` (`src/dwarf_entry.rs`): fill in the attributes
of the pre-allocated entry `selfId` for the term `ty`, materializing
missing sub-term entries as siblings and registering them in the type map
(each immediately after its own `init_type` returns), exactly as the
source does for pointers, arrays and function return types.  `is64` is
`self.elf.object().is_64()`. -/
def initType (is64 : Bool) (selfId : Nat) (ty : DwarfType) (st : IState) : IState :=
  match ty with
  | .primitive name size =>
    let st1 := setAttr st selfId .name (.str name)
    (match size with
     | some s => setAttr st1 selfId .byteSize (.udata s)
     | none => st1)
  | .pointer pointee =>
    let res :=
      match lookupTM st.typeMap pointee with
      | some i => (st, i)
      | none =>
        let k := st.nextId
        let sa := addEntry st (typeTag pointee) (some pointee)
        let sb := initType is64 k pointee sa
        ({ sb with typeMap := (pointee, k) :: sb.typeMap }, k)
    let st2 := setAttr res.1 selfId .byteSize (.udata (if is64 then 8 else 4))
    setAttr st2 selfId .typeRef (.unitRef res.2)
  | .typedef _ _ => st
  | .array innerType len =>
    let res :=
      match lookupTM st.typeMap innerType with
      | some i => (st, i)
      | none =>
        let k := st.nextId
        let sa := addEntry st (typeTag innerType) (some innerType)
        let sb := initType is64 k innerType sa
        ({ sb with typeMap := (innerType, k) :: sb.typeMap }, k)
    let st2 := setAttr res.1 selfId .typeRef (.unitRef res.2)
    let sub := st2.nextId
    let st3 := addEntry st2 .subrangeType none
    (match len with
     | some n => setAttr st3 sub .upperBound (.data8 n)
     | none => st3)
  | .struct _ => st
  | .function returnType _ =>
    let res :=
      match lookupTM st.typeMap returnType with
      | some i => (st, i)
      | none =>
        let k := st.nextId
        let sa := addEntry st (typeTag returnType) (some returnType)
        let sb := initType is64 k returnType sa
        ({ sb with typeMap := (returnType, k) :: sb.typeMap }, k)
    setAttr res.1 selfId .typeRef (.unitRef res.2)

/-- Body of the `update_types` loop (`src/dwarf_unit.rs`) for a single
type: when the term is not yet in the type map, allocate a root child with
the term's tag, initialize it, and insert the mapping. -/
def internOne (is64 : Bool) (ty : DwarfType) (st : IState) : IState :=
  if lookupTM st.typeMap ty = none then
    let k := st.nextId
    let st1 := addEntry st (typeTag ty) (some ty)
    let st2 := initType is64 k ty st1
    { st2 with typeMap := (ty, k) :: st2.typeMap }
  else st

/-- `DwarfUnitRef::update_types` (`src/dwarf_unit.rs`). -/
def updateTypes (is64 : Bool) (tys : List DwarfType) (st : IState) : IState :=
  tys.foldl (fun s t => internOne is64 t s) st

/-! ## Interner invariants -/

/-- Well-formedness of the unit state: every allocated entry's id is below
the allocation counter. -/
def WFState (st : IState) : Prop := ∀ e ∈ st.entries, e.id < st.nextId

/-- The interner invariant at one term: a mapped term has exactly one
entry representing it, and the mapped id is that entry's; an unmapped term
has no entry. -/
def GoodAt (st : IState) (t : DwarfType) : Prop :=
  (∀ i, lookupTM st.typeMap t = some i →
    countTerm st t = 1 ∧ ∃ e ∈ st.entries, e.id = i ∧ e.term = some t) ∧
  (lookupTM st.typeMap t = none → countTerm st t = 0)

/-- The interner invariant. -/
def GoodState (st : IState) : Prop := WFState st ∧ ∀ t, GoodAt st t

/-- Entry skeletons (id and represented term) are preserved from `st` to
`st'`. -/
def presEnt (st st' : IState) : Prop :=
  ∀ j tm, (∃ e ∈ st.entries, e.id = j ∧ e.term = tm) →
    ∃ e ∈ st'.entries, e.id = j ∧ e.term = tm

theorem presEnt_refl (st : IState) : presEnt st st := fun _ _ h => h

theorem presEnt_trans {s1 s2 s3 : IState} (h1 : presEnt s1 s2) (h2 : presEnt s2 s3) :
    presEnt s1 s3 := fun j tm h => h2 j tm (h1 j tm h)

theorem countTermL_setAttr (l : List TEntry) (i : Nat) (k : DwAt) (v : AttrVal) (t : DwarfType) :
    countTermL (l.map (fun e => if e.id = i then { e with attrs := setA e.attrs k v } else e)) t
      = countTermL l t := by
  induction l with
  | nil => rfl
  | cons e r ih =>
    by_cases he : e.id = i <;> simp [he, countTermL, ih]

theorem countTerm_setAttr (st : IState) (i : Nat) (k : DwAt) (v : AttrVal) (t : DwarfType) :
    countTerm (setAttr st i k v) t = countTerm st t := by
  simpa [countTerm, setAttr] using countTermL_setAttr st.entries i k v t

theorem typeMap_setAttr (st : IState) (i : Nat) (k : DwAt) (v : AttrVal) :
    (setAttr st i k v).typeMap = st.typeMap := rfl

theorem nextId_setAttr (st : IState) (i : Nat) (k : DwAt) (v : AttrVal) :
    (setAttr st i k v).nextId = st.nextId := rfl

theorem WFState_setAttr {st : IState} (h : WFState st) (i : Nat) (k : DwAt) (v : AttrVal) :
    WFState (setAttr st i k v) := by
  intro e he
  simp only [setAttr, List.mem_map] at he
  obtain ⟨a, ha, rfl⟩ := he
  have := h a ha
  by_cases hai : a.id = i <;> simp [hai, nextId_setAttr, this] <;> omega

theorem presEnt_setAttr (st : IState) (i : Nat) (k : DwAt) (v : AttrVal) :
    presEnt st (setAttr st i k v) := by
  intro j tm ⟨e, he, hid, htm⟩
  by_cases hei : e.id = i
  · exact ⟨{ e with attrs := setA e.attrs k v }, by
      simp only [setAttr, List.mem_map]
      exact ⟨e, he, by simp [hei]⟩, by simpa using hid, by simpa using htm⟩
  · exact ⟨e, by
      simp only [setAttr, List.mem_map]
      exact ⟨e, he, by simp [hei]⟩, hid, htm⟩

theorem countTermL_concat (l : List TEntry) (x : TEntry) (t : DwarfType) :
    countTermL (l ++ [x]) t = countTermL l t + (if x.term = some t then 1 else 0) := by
  induction l with
  | nil => simp [countTermL]
  | cons e r ih => simp [countTermL, ih]; omega

theorem countTerm_addEntry (st : IState) (tg : DwTag) (tm : Option DwarfType) (t : DwarfType) :
    countTerm (addEntry st tg tm) t = countTerm st t + (if tm = some t then 1 else 0) := by
  simp [countTerm, addEntry, countTermL_concat]

theorem typeMap_addEntry (st : IState) (tg : DwTag) (tm : Option DwarfType) :
    (addEntry st tg tm).typeMap = st.typeMap := rfl

theorem nextId_addEntry (st : IState) (tg : DwTag) (tm : Option DwarfType) :
    (addEntry st tg tm).nextId = st.nextId + 1 := rfl

theorem WFState_addEntry {st : IState} (h : WFState st) (tg : DwTag) (tm : Option DwarfType) :
    WFState (addEntry st tg tm) := by
  intro e he
  simp only [addEntry, List.mem_append, List.mem_singleton] at he
  rcases he with he | rfl
  · exact Nat.lt_succ_of_lt (h e he)
  · exact Nat.lt_succ_self _

theorem presEnt_addEntry (st : IState) (tg : DwTag) (tm : Option DwarfType) :
    presEnt st (addEntry st tg tm) := by
  intro j tm' ⟨e, he, hid, htm⟩
  exact ⟨e, by simp [addEntry, he], hid, htm⟩

theorem mem_addEntry_new (st : IState) (tg : DwTag) (tm : Option DwarfType) :
    ∃ e ∈ (addEntry st tg tm).entries, e.id = st.nextId ∧ e.term = tm := by
  exact ⟨⟨st.nextId, tg, tm, []⟩, by simp [addEntry], rfl, rfl⟩

/-- What one `init_type` call does to the unit state, relative to the
pending terms `P` (terms whose entry is allocated but whose mapping is not
yet inserted): it keeps the state well formed, keeps every pending term
pending with its single entry, keeps the invariant at all other terms,
never overwrites an existing mapping, maps only terms smaller than the one
being initialized, and preserves every entry skeleton. -/
def StepOK (pend : DwarfType) (P : List DwarfType) (st st' : IState) : Prop :=
  WFState st' ∧ st.nextId ≤ st'.nextId ∧
  (∀ q ∈ P, lookupTM st'.typeMap q = none ∧ countTerm st' q = 1) ∧
  (∀ t, t ∉ P → GoodAt st' t) ∧
  (∀ t i, lookupTM st.typeMap t = some i → lookupTM st'.typeMap t = some i) ∧
  (∀ t, lookupTM st'.typeMap t ≠ lookupTM st.typeMap t → tsize t < tsize pend) ∧
  presEnt st st'

theorem GoodAt_setAttr {st : IState} {t : DwarfType} (h : GoodAt st t)
    (i : Nat) (k : DwAt) (v : AttrVal) : GoodAt (setAttr st i k v) t := by
  refine ⟨fun j hj => ?_, fun hn => ?_⟩
  · rw [typeMap_setAttr] at hj
    obtain ⟨hc, he⟩ := h.1 j hj
    exact ⟨by rw [countTerm_setAttr]; exact hc, presEnt_setAttr st i k v j (some t) he⟩
  · rw [typeMap_setAttr] at hn
    rw [countTerm_setAttr]
    exact h.2 hn

theorem GoodAt_addNone {st : IState} {t : DwarfType} (h : GoodAt st t) (tg : DwTag) :
    GoodAt (addEntry st tg none) t := by
  refine ⟨fun j hj => ?_, fun hn => ?_⟩
  · rw [typeMap_addEntry] at hj
    obtain ⟨hc, he⟩ := h.1 j hj
    refine ⟨?_, presEnt_addEntry st tg none j (some t) he⟩
    rw [countTerm_addEntry]
    simpa using hc
  · rw [typeMap_addEntry] at hn
    rw [countTerm_addEntry]
    simpa using h.2 hn

theorem StepOK_setAttr {pend : DwarfType} {P : List DwarfType} {st st' : IState}
    (h : StepOK pend P st st') (i : Nat) (k : DwAt) (v : AttrVal) :
    StepOK pend P st (setAttr st' i k v) := by
  obtain ⟨h1, h2, h3, h4, h5, h6, h7⟩ := h
  refine ⟨WFState_setAttr h1 i k v, ?_, ?_, ?_, ?_, ?_, ?_⟩
  · rw [nextId_setAttr]; exact h2
  · intro q hq
    rw [typeMap_setAttr, countTerm_setAttr]
    exact h3 q hq
  · intro t ht
    exact GoodAt_setAttr (h4 t ht) i k v
  · intro t j hj
    rw [typeMap_setAttr]
    exact h5 t j hj
  · intro t ht
    rw [typeMap_setAttr] at ht
    exact h6 t ht
  · exact presEnt_trans h7 (presEnt_setAttr st' i k v)

theorem StepOK_addNone {pend : DwarfType} {P : List DwarfType} {st st' : IState}
    (h : StepOK pend P st st') (tg : DwTag) :
    StepOK pend P st (addEntry st' tg none) := by
  obtain ⟨h1, h2, h3, h4, h5, h6, h7⟩ := h
  refine ⟨WFState_addEntry h1 tg none, ?_, ?_, ?_, ?_, ?_, ?_⟩
  · rw [nextId_addEntry]; omega
  · intro q hq
    rw [typeMap_addEntry, countTerm_addEntry]
    simpa using h3 q hq
  · intro t ht
    exact GoodAt_addNone (h4 t ht) tg
  · intro t j hj
    rw [typeMap_addEntry]
    exact h5 t j hj
  · intro t ht
    rw [typeMap_addEntry] at ht
    exact h6 t ht
  · exact presEnt_trans h7 (presEnt_addEntry st' tg none)

theorem StepOK_refl {pend : DwarfType} {P : List DwarfType} {st : IState}
    (hWF : WFState st)
    (hP : ∀ q ∈ P, lookupTM st.typeMap q = none ∧ countTerm st q = 1)
    (hRest : ∀ t, t ∉ P → GoodAt st t) :
    StepOK pend P st st := by
  refine ⟨hWF, le_refl _, hP, hRest, fun t j hj => hj, fun t ht => absurd rfl ht, presEnt_refl st⟩

/-- The sub-term resolution step shared by the pointer, array and function
arms of `init_type`: look the sub-term up in the type map, creating,
initializing and registering its entry when absent; returns the updated
state and the sub-term's entry id. -/
def resolveSub (is64 : Bool) (sub : DwarfType) (st : IState) : IState × Nat :=
  match lookupTM st.typeMap sub with
  | some i => (st, i)
  | none =>
    let k := st.nextId
    let sb := initType is64 k sub (addEntry st (typeTag sub) (some sub))
    ({ sb with typeMap := (sub, k) :: sb.typeMap }, k)

theorem initType_pointer (is64 : Bool) (selfId : Nat) (pointee : DwarfType) (st : IState) :
    initType is64 selfId (.pointer pointee) st =
      setAttr (setAttr (resolveSub is64 pointee st).1 selfId .byteSize
          (.udata (if is64 then 8 else 4)))
        selfId .typeRef (.unitRef (resolveSub is64 pointee st).2) := by
  cases h : lookupTM st.typeMap pointee <;> simp [initType, resolveSub, h]

theorem initType_array (is64 : Bool) (selfId : Nat) (innerType : DwarfType)
    (len : Option Nat) (st : IState) :
    initType is64 selfId (.array innerType len) st =
      (let st2 := setAttr (resolveSub is64 innerType st).1 selfId .typeRef
          (.unitRef (resolveSub is64 innerType st).2)
       let st3 := addEntry st2 .subrangeType none
       match len with
       | some n => setAttr st3 st2.nextId .upperBound (.data8 n)
       | none => st3) := by
  cases h : lookupTM st.typeMap innerType <;> simp [initType, resolveSub, h]

theorem initType_function (is64 : Bool) (selfId : Nat) (returnType : DwarfType)
    (args : List DwarfType) (st : IState) :
    initType is64 selfId (.function returnType args) st =
      setAttr (resolveSub is64 returnType st).1 selfId .typeRef
        (.unitRef (resolveSub is64 returnType st).2) := by
  cases h : lookupTM st.typeMap returnType <;> simp [initType, resolveSub, h]

theorem countTerm_consMap (sb : IState) (m : List (DwarfType × Nat)) (t : DwarfType) :
    countTerm { sb with typeMap := m } t = countTerm sb t := rfl

theorem GoodAt_consMap {sb : IState} {sub t : DwarfType} {k : Nat}
    (ht : t ≠ sub) (h : GoodAt sb t) :
    GoodAt { sb with typeMap := (sub, k) :: sb.typeMap } t := by
  refine ⟨fun j hj => ?_, fun hn => ?_⟩
  · simp only [lookupTM] at hj
    rw [if_neg (fun hexact => ht hexact.symm)] at hj
    obtain ⟨hc, he⟩ := h.1 j hj
    exact ⟨hc, he⟩
  · simp only [lookupTM] at hn
    rw [if_neg (fun hexact => ht hexact.symm)] at hn
    exact h.2 hn

/-- What the sub-term resolution step guarantees: the pending terms stay
pending, the invariant holds away from the pending terms, the map only
grows, only with terms no larger than the sub-term, and the sub-term ends
up mapped to the returned id.  The induction hypothesis for
`initType_inv` on the sub-term is taken as an argument (`IH`). -/
theorem resolveSub_inv (is64 : Bool) (sub : DwarfType) (P : List DwarfType) (st : IState)
    (IH : ∀ (pid : Nat) (P' : List DwarfType) (s : IState),
        WFState s →
        (∀ q ∈ P', lookupTM s.typeMap q = none ∧ countTerm s q = 1) →
        (∀ q ∈ P', tsize sub ≤ tsize q) →
        (∀ t, t ∉ P' → GoodAt s t) →
        StepOK sub P' s (initType is64 pid sub s))
    (hWF : WFState st)
    (hP : ∀ q ∈ P, lookupTM st.typeMap q = none ∧ countTerm st q = 1)
    (hMin : ∀ q ∈ P, tsize sub < tsize q)
    (hRest : ∀ t, t ∉ P → GoodAt st t) :
    WFState (resolveSub is64 sub st).1 ∧
    st.nextId ≤ (resolveSub is64 sub st).1.nextId ∧
    (∀ q ∈ P, lookupTM (resolveSub is64 sub st).1.typeMap q = none ∧
      countTerm (resolveSub is64 sub st).1 q = 1) ∧
    (∀ t, t ∉ P → GoodAt (resolveSub is64 sub st).1 t) ∧
    (∀ t i, lookupTM st.typeMap t = some i →
      lookupTM (resolveSub is64 sub st).1.typeMap t = some i) ∧
    (∀ t, lookupTM (resolveSub is64 sub st).1.typeMap t ≠ lookupTM st.typeMap t →
      tsize t ≤ tsize sub) ∧
    presEnt st (resolveSub is64 sub st).1 ∧
    lookupTM (resolveSub is64 sub st).1.typeMap sub = some (resolveSub is64 sub st).2 := by
  have hsubP : sub ∉ P := fun hmem => lt_irrefl _ (hMin sub hmem)
  cases hlk : lookupTM st.typeMap sub with
  | some i =>
    have hres : resolveSub is64 sub st = (st, i) := by
      rw [resolveSub, hlk]
    rw [hres]
    exact ⟨hWF, le_refl _, hP, hRest, fun t j hj => hj,
      fun t ht => absurd rfl ht, presEnt_refl st, hlk⟩
  | none =>
    have hcount0 : countTerm st sub = 0 := (hRest sub hsubP).2 hlk
    set sa := addEntry st (typeTag sub) (some sub) with hsa
    have hWFa : WFState sa := WFState_addEntry hWF _ _
    have hPa : ∀ q ∈ sub :: P, lookupTM sa.typeMap q = none ∧ countTerm sa q = 1 := by
      intro q hq
      rcases List.mem_cons.mp hq with rfl | hq
      · constructor
        · rw [hsa, typeMap_addEntry]; exact hlk
        · rw [hsa, countTerm_addEntry]; simp [hcount0]
      · obtain ⟨hq1, hq2⟩ := hP q hq
        have hqsub : q ≠ sub := fun he => hsubP (he ▸ hq)
        constructor
        · rw [hsa, typeMap_addEntry]; exact hq1
        · rw [hsa, countTerm_addEntry, hq2]
          simp [Ne.symm hqsub]
    have hMina : ∀ q ∈ sub :: P, tsize sub ≤ tsize q := by
      intro q hq
      rcases List.mem_cons.mp hq with rfl | hq
      · exact le_refl _
      · exact le_of_lt (hMin q hq)
    have hResta : ∀ t, t ∉ sub :: P → GoodAt sa t := by
      intro t ht
      have htsub : t ≠ sub := fun he => ht (he ▸ List.mem_cons_self _ _)
      have htP : t ∉ P := fun hm => ht (List.mem_cons_of_mem _ hm)
      have hg := hRest t htP
      refine ⟨fun j hj => ?_, fun hn => ?_⟩
      · rw [hsa, typeMap_addEntry] at hj
        obtain ⟨hc, he⟩ := hg.1 j hj
        refine ⟨?_, presEnt_addEntry st _ _ j (some t) he⟩
        rw [hsa, countTerm_addEntry, hc]
        simp [Ne.symm htsub]
      · rw [hsa, typeMap_addEntry] at hn
        rw [hsa, countTerm_addEntry, hg.2 hn]
        simp [Ne.symm htsub]
    have hSOK := IH st.nextId (sub :: P) sa hWFa hPa hMina hResta
    obtain ⟨w1, w2, w3, w4, w5, w6, w7⟩ := hSOK
    set sb := initType is64 st.nextId sub sa with hsb
    have hres : resolveSub is64 sub st =
        ({ sb with typeMap := (sub, st.nextId) :: sb.typeMap }, st.nextId) := by
      rw [resolveSub, hlk]
    rw [hres]
    have hkfresh : lookupTM sb.typeMap sub = none := (w3 sub (List.mem_cons_self _ _)).1
    refine ⟨?_, ?_, ?_, ?_, ?_, ?_, ?_, ?_⟩
    · intro e he
      exact w1 e he
    · show st.nextId ≤ sb.nextId
      have h1 : sa.nextId = st.nextId + 1 := rfl
      omega
    · intro q hq
      have hqsub : q ≠ sub := fun he => hsubP (he ▸ hq)
      obtain ⟨hq1, hq2⟩ := w3 q (List.mem_cons_of_mem _ hq)
      constructor
      · simp only [lookupTM]
        rw [if_neg (fun he => hqsub he.symm)]
        exact hq1
      · rw [countTerm_consMap]
        exact hq2
    · intro t ht
      by_cases htsub : t = sub
      · subst htsub
        refine ⟨fun j hj => ?_, fun hn => ?_⟩
        · have hj' : some st.nextId = some j := by
            simpa [lookupTM] using hj
          obtain rfl : st.nextId = j := by injection hj'
          refine ⟨?_, ?_⟩
          · rw [countTerm_consMap]
            exact (w3 t (List.mem_cons_self _ _)).2
          · have hnew := mem_addEntry_new st (typeTag t) (some t)
            exact w7 st.nextId (some t) hnew
        · simp [lookupTM] at hn
      · exact GoodAt_consMap htsub (w4 t (by simp [htsub, ht]))
    · intro t j hj
      have htsub : t ≠ sub := fun he => by rw [he, hlk] at hj; exact Option.noConfusion hj
      have := w5 t j (by rw [hsa, typeMap_addEntry]; exact hj)
      simp only [lookupTM]
      rw [if_neg (fun he => htsub he.symm)]
      exact this
    · intro t ht
      by_cases htsub : t = sub
      · exact le_of_eq (congrArg tsize htsub)
      · simp only [lookupTM] at ht
        rw [if_neg (fun he => htsub he.symm)] at ht
        have hchain : lookupTM sb.typeMap t ≠ lookupTM sa.typeMap t → tsize t < tsize sub :=
          w6 t
        by_cases hch : lookupTM sb.typeMap t = lookupTM sa.typeMap t
        · rw [hch, hsa, typeMap_addEntry] at ht
          exact absurd rfl ht
        · exact le_of_lt (hchain hch)
    · refine presEnt_trans (presEnt_addEntry st (typeTag sub) (some sub)) ?_
      refine presEnt_trans w7 ?_
      intro j tm h
      exact h
    · simp [lookupTM]

/-- `init_type` respects the interner invariant: initializing a
pre-allocated entry for `pend` (with the pending terms `P` all at least as
large as `pend`) is a `StepOK` step. -/
theorem initType_inv (is64 : Bool) (pend : DwarfType) (pendId : Nat) (P : List DwarfType)
    (st : IState)
    (hWF : WFState st)
    (hP : ∀ q ∈ P, lookupTM st.typeMap q = none ∧ countTerm st q = 1)
    (hMin : ∀ q ∈ P, tsize pend ≤ tsize q)
    (hRest : ∀ t, t ∉ P → GoodAt st t) :
    StepOK pend P st (initType is64 pendId pend st) := by
  cases pend with
  | primitive n s =>
    have h0 : StepOK (DwarfType.primitive n s) P st st := StepOK_refl hWF hP hRest
    cases s with
    | some v =>
      simpa [initType] using StepOK_setAttr (StepOK_setAttr h0 pendId .name (.str n))
        pendId .byteSize (.udata v)
    | none =>
      simpa [initType] using StepOK_setAttr h0 pendId .name (.str n)
  | typedef n r =>
    simpa [initType] using
      (StepOK_refl hWF hP hRest : StepOK (DwarfType.typedef n r) P st st)
  | struct fs =>
    simpa [initType] using
      (StepOK_refl hWF hP hRest : StepOK (DwarfType.struct fs) P st st)
  | pointer pointee =>
    have hr := resolveSub_inv is64 pointee P st
      (fun pid P' s h1 h2 h3 h4 => initType_inv is64 pointee pid P' s h1 h2 h3 h4)
      hWF hP
      (fun q hq => lt_of_lt_of_le (by simp [tsize]) (hMin q hq))
      hRest
    obtain ⟨r1, r2, r3, r4, r5, r6, r7, r8⟩ := hr
    have hstep : StepOK (DwarfType.pointer pointee) P st (resolveSub is64 pointee st).1 := by
      refine ⟨r1, r2, r3, r4, r5, fun t ht => ?_, r7⟩
      have := r6 t ht
      have hsz : tsize pointee < tsize (DwarfType.pointer pointee) := by simp [tsize]
      omega
    rw [initType_pointer]
    exact StepOK_setAttr (StepOK_setAttr hstep pendId .byteSize _) pendId .typeRef _
  | array innerType len =>
    have hr := resolveSub_inv is64 innerType P st
      (fun pid P' s h1 h2 h3 h4 => initType_inv is64 innerType pid P' s h1 h2 h3 h4)
      hWF hP
      (fun q hq => lt_of_lt_of_le (by simp [tsize]) (hMin q hq))
      hRest
    obtain ⟨r1, r2, r3, r4, r5, r6, r7, r8⟩ := hr
    have hstep : StepOK (DwarfType.array innerType len) P st (resolveSub is64 innerType st).1 := by
      refine ⟨r1, r2, r3, r4, r5, fun t ht => ?_, r7⟩
      have := r6 t ht
      have hsz : tsize innerType < tsize (DwarfType.array innerType len) := by simp [tsize]
      omega
    rw [initType_array]
    have hstep2 := StepOK_addNone (StepOK_setAttr hstep pendId .typeRef
      (.unitRef (resolveSub is64 innerType st).2)) .subrangeType
    cases len with
    | some v => exact StepOK_setAttr hstep2 _ .upperBound (.data8 v)
    | none => exact hstep2
  | function returnType args =>
    have hr := resolveSub_inv is64 returnType P st
      (fun pid P' s h1 h2 h3 h4 => initType_inv is64 returnType pid P' s h1 h2 h3 h4)
      hWF hP
      (fun q hq => lt_of_lt_of_le (by simp [tsize]) (hMin q hq))
      hRest
    obtain ⟨r1, r2, r3, r4, r5, r6, r7, r8⟩ := hr
    have hstep : StepOK (DwarfType.function returnType args) P st
        (resolveSub is64 returnType st).1 := by
      refine ⟨r1, r2, r3, r4, r5, fun t ht => ?_, r7⟩
      have := r6 t ht
      have hsz : tsize returnType < tsize (DwarfType.function returnType args) := by
        simp [tsize]
      omega
    rw [initType_function]
    exact StepOK_setAttr hstep pendId .typeRef _
termination_by tsize pend
decreasing_by
  all_goals subst_vars
  all_goals simp [tsize]

theorem resolveSub_mapMono (is64 : Bool) (sub : DwarfType) (st : IState)
    (IH : ∀ (pid : Nat) (s : IState) (t : DwarfType) (i : Nat),
      lookupTM s.typeMap t = some i → lookupTM (initType is64 pid sub s).typeMap t = some i)
    (t : DwarfType) (i : Nat) (h : lookupTM st.typeMap t = some i) :
    lookupTM (resolveSub is64 sub st).1.typeMap t = some i := by
  cases hlk : lookupTM st.typeMap sub with
  | some j =>
    have hres : resolveSub is64 sub st = (st, j) := by rw [resolveSub, hlk]
    rw [hres]
    exact h
  | none =>
    have htsub : t ≠ sub := fun he => by rw [he, hlk] at h; exact Option.noConfusion h
    have hres : resolveSub is64 sub st =
        ({ initType is64 st.nextId sub (addEntry st (typeTag sub) (some sub)) with
            typeMap := (sub, st.nextId) ::
              (initType is64 st.nextId sub (addEntry st (typeTag sub) (some sub))).typeMap },
          st.nextId) := by
      rw [resolveSub, hlk]
    rw [hres]
    simp only [lookupTM]
    rw [if_neg (fun he => htsub he.symm)]
    exact IH st.nextId (addEntry st (typeTag sub) (some sub)) t i h

/-- The type map only grows during `init_type`: existing mappings are
never overwritten. -/
theorem initType_mapMono (is64 : Bool) (j : Nat) (ty : DwarfType) (st : IState)
    (t : DwarfType) (i : Nat) (h : lookupTM st.typeMap t = some i) :
    lookupTM (initType is64 j ty st).typeMap t = some i := by
  cases ty with
  | primitive n s =>
    cases s <;> simp only [initType, typeMap_setAttr] <;> exact h
  | typedef n r => simpa [initType] using h
  | struct fs => simpa [initType] using h
  | pointer p =>
    rw [initType_pointer]
    simp only [typeMap_setAttr]
    exact resolveSub_mapMono is64 p st
      (fun pid s t' i' h' => initType_mapMono is64 pid p s t' i' h') t i h
  | array inner len =>
    rw [initType_array]
    have hbase := resolveSub_mapMono is64 inner st
      (fun pid s t' i' h' => initType_mapMono is64 pid inner s t' i' h') t i h
    cases len <;> simp only [typeMap_setAttr, typeMap_addEntry] <;> exact hbase
  | function r args =>
    rw [initType_function]
    simp only [typeMap_setAttr]
    exact resolveSub_mapMono is64 r st
      (fun pid s t' i' h' => initType_mapMono is64 pid r s t' i' h') t i h
termination_by tsize ty
decreasing_by
  all_goals subst_vars
  all_goals simp [tsize]

/-- `internOne` never overwrites an existing mapping. -/
theorem internOne_mono (is64 : Bool) (ty : DwarfType) (st : IState)
    (t : DwarfType) (i : Nat) (h : lookupTM st.typeMap t = some i) :
    lookupTM (internOne is64 ty st).typeMap t = some i := by
  by_cases hlk : lookupTM st.typeMap ty = none
  · have htsub : t ≠ ty := fun he => by rw [he, hlk] at h; exact Option.noConfusion h
    rw [internOne, if_pos hlk]
    simp only [lookupTM]
    rw [if_neg (fun he => htsub he.symm)]
    exact initType_mapMono is64 st.nextId ty (addEntry st (typeTag ty) (some ty)) t i h
  · rw [internOne, if_neg hlk]
    exact h

theorem updateTypes_mono (is64 : Bool) (tys : List DwarfType) (st : IState)
    (t : DwarfType) (i : Nat) (h : lookupTM st.typeMap t = some i) :
    lookupTM (updateTypes is64 tys st).typeMap t = some i := by
  induction tys generalizing st with
  | nil => exact h
  | cons a rest ih =>
    exact ih (internOne is64 a st) (internOne_mono is64 a st t i h)

/-- One pass of the `update_types` loop body preserves the interner
invariant, and afterwards the processed term is mapped. -/
theorem internOne_spec (is64 : Bool) (ty : DwarfType) (st : IState) (h : GoodState st) :
    GoodState (internOne is64 ty st) ∧
    ∃ i, lookupTM (internOne is64 ty st).typeMap ty = some i := by
  obtain ⟨hWF, hGood⟩ := h
  by_cases hlk : lookupTM st.typeMap ty = none
  · have hcount0 : countTerm st ty = 0 := (hGood ty).2 hlk
    set sa := addEntry st (typeTag ty) (some ty) with hsa
    have hWFa : WFState sa := WFState_addEntry hWF _ _
    have hPa : ∀ q ∈ [ty], lookupTM sa.typeMap q = none ∧ countTerm sa q = 1 := by
      intro q hq
      rw [List.mem_singleton] at hq
      subst hq
      refine ⟨hlk, ?_⟩
      rw [hsa, countTerm_addEntry]
      simp [hcount0]
    have hMina : ∀ q ∈ [ty], tsize ty ≤ tsize q := by
      intro q hq
      rw [List.mem_singleton] at hq
      subst hq
      exact le_refl _
    have hResta : ∀ t, t ∉ [ty] → GoodAt sa t := by
      intro t ht
      rw [List.mem_singleton] at ht
      have hg := hGood t
      refine ⟨fun j hj => ?_, fun hn => ?_⟩
      · obtain ⟨hc, he⟩ := hg.1 j hj
        refine ⟨?_, presEnt_addEntry st _ _ j (some t) he⟩
        rw [hsa, countTerm_addEntry, hc]
        simp [Ne.symm ht]
      · rw [hsa, countTerm_addEntry, hg.2 hn]
        simp [Ne.symm ht]
    have hSOK := initType_inv is64 ty st.nextId [ty] sa hWFa hPa hMina hResta
    obtain ⟨w1, w2, w3, w4, w5, w6, w7⟩ := hSOK
    set sb := initType is64 st.nextId ty sa with hsb
    have heq : internOne is64 ty st = { sb with typeMap := (ty, st.nextId) :: sb.typeMap } := by
      rw [internOne, if_pos hlk]
    rw [heq]
    refine ⟨⟨fun e he => w1 e he, fun t => ?_⟩, ⟨st.nextId, by simp [lookupTM]⟩⟩
    by_cases htty : t = ty
    · subst htty
      refine ⟨fun j hj => ?_, fun hn => ?_⟩
      · have hj' : some st.nextId = some j := by
          simpa [lookupTM] using hj
        obtain rfl : st.nextId = j := by injection hj'
        refine ⟨?_, ?_⟩
        · rw [countTerm_consMap]
          exact (w3 t (List.mem_singleton_self t)).2
        · have hnew := mem_addEntry_new st (typeTag t) (some t)
          exact w7 st.nextId (some t) hnew
      · simp [lookupTM] at hn
    · exact GoodAt_consMap htty (w4 t (by simp [htty]))
  · rw [internOne, if_neg hlk]
    refine ⟨⟨hWF, hGood⟩, ?_⟩
    cases hl : lookupTM st.typeMap ty with
    | some i => exact ⟨i, rfl⟩
    | none => exact absurd hl hlk

/-- The full `update_types` pass preserves the interner invariant and maps
every processed term. -/
theorem updateTypes_spec (is64 : Bool) (tys : List DwarfType) (st : IState)
    (h : GoodState st) :
    GoodState (updateTypes is64 tys st) ∧
    ∀ t ∈ tys, ∃ i, lookupTM (updateTypes is64 tys st).typeMap t = some i := by
  induction tys generalizing st with
  | nil => exact ⟨h, by simp⟩
  | cons a rest ih =>
    obtain ⟨g1, i0, hi0⟩ := internOne_spec is64 a st h
    obtain ⟨G, hmem⟩ := ih (internOne is64 a st) g1
    refine ⟨G, ?_⟩
    intro t ht
    rcases List.mem_cons.mp ht with rfl | ht
    · exact ⟨i0, updateTypes_mono is64 rest (internOne is64 t st) t i0 hi0⟩
    · exact hmem t ht

theorem goodState_empty : GoodState ⟨0, [], []⟩ := by
  refine ⟨fun e he => absurd he (List.not_mem_nil e), fun t => ⟨fun i hi => ?_, fun _ => rfl⟩⟩
  simp [lookupTM] at hi

/-- C1: type interning is idempotent and deduplicating.  Starting from any
unit state satisfying the interner invariant (in particular the empty
unit), after the `update_types` pass the invariant still holds and every
processed term `t` is mapped to an id `i` such that exactly one entry of
the unit represents `t`, that entry is the one with id `i`, and a
subsequent interning of `t` is a no-op returning the same state (hence the
same id) instead of creating a second entry; sub-term lookups during
`init_type` reuse existing mappings the same way, since mappings are never
overwritten. -/
theorem c1_type_interning_idempotent (is64 : Bool) (tys : List DwarfType) (st : IState)
    (h : GoodState st) :
    GoodState (updateTypes is64 tys st) ∧
    ∀ t ∈ tys, ∃ i,
      lookupTM (updateTypes is64 tys st).typeMap t = some i ∧
      countTerm (updateTypes is64 tys st) t = 1 ∧
      (∃ e ∈ (updateTypes is64 tys st).entries, e.id = i ∧ e.term = some t) ∧
      internOne is64 t (updateTypes is64 tys st) = updateTypes is64 tys st := by
  obtain ⟨G, hmem⟩ := updateTypes_spec is64 tys st h
  refine ⟨G, fun t ht => ?_⟩
  obtain ⟨i, hi⟩ := hmem t ht
  obtain ⟨hc, he⟩ := (G.2 t).1 i hi
  refine ⟨i, hi, hc, he, ?_⟩
  rw [internOne, if_neg (by rw [hi]; exact fun hcontr => Option.noConfusion hcontr)]

/-- C1 witness: interning a pointer-to-int32 term into an empty unit. -/
theorem c1_type_interning_idempotent_witness :
    GoodState ⟨0, [], []⟩ ∧
    (GoodState (updateTypes true [.pointer (.primitive "int32_t" (some 4))] ⟨0, [], []⟩) ∧
     ∀ t ∈ [DwarfType.pointer (.primitive "int32_t" (some 4))], ∃ i,
       lookupTM (updateTypes true [.pointer (.primitive "int32_t" (some 4))]
           ⟨0, [], []⟩).typeMap t = some i ∧
       countTerm (updateTypes true [.pointer (.primitive "int32_t" (some 4))] ⟨0, [], []⟩) t
           = 1 ∧
       (∃ e ∈ (updateTypes true [.pointer (.primitive "int32_t" (some 4))] ⟨0, [], []⟩).entries,
         e.id = i ∧ e.term = some t) ∧
       internOne true t (updateTypes true [.pointer (.primitive "int32_t" (some 4))] ⟨0, [], []⟩)
           = updateTypes true [.pointer (.primitive "int32_t" (some 4))] ⟨0, [], []⟩) :=
  ⟨goodState_empty,
   c1_type_interning_idempotent true [.pointer (.primitive "int32_t" (some 4))] ⟨0, [], []⟩
     goodState_empty⟩

/-! ## Frame lemmas for reading a single entry's attributes back -/

theorem findL_setA_ne (l : List TEntry) (i j : Nat) (k : DwAt) (v : AttrVal) (hij : i ≠ j) :
    (l.map (fun e => if e.id = j then { e with attrs := setA e.attrs k v } else e)).find?
        (fun e => e.id = i)
      = l.find? (fun e => e.id = i) := by
  induction l with
  | nil => rfl
  | cons e r ih =>
    by_cases hej : e.id = j
    · have hei : ¬ e.id = i := by rw [hej]; exact fun h => hij h.symm
      simp [List.find?, hej, hei, Ne.symm hij, ih]
    · by_cases hei : e.id = i <;> simp [List.find?, hej, hei, hij, ih]

theorem findE_setAttr_ne (st : IState) (i j : Nat) (k : DwAt) (v : AttrVal) (hij : i ≠ j) :
    findE (setAttr st j k v) i = findE st i :=
  findL_setA_ne st.entries i j k v hij

theorem findL_append_ne (l : List TEntry) (x : TEntry) (i : Nat) (hx : ¬ x.id = i) :
    (l ++ [x]).find? (fun e => e.id = i) = l.find? (fun e => e.id = i) := by
  induction l with
  | nil => simp [List.find?, hx]
  | cons e r ih =>
    by_cases he : e.id = i <;> simp [List.find?, he, ih]

theorem findE_addEntry_ne (st : IState) (tg : DwTag) (tm : Option DwarfType) (i : Nat)
    (hi : ¬ i = st.nextId) :
    findE (addEntry st tg tm) i = findE st i :=
  findL_append_ne st.entries _ i (fun h => hi h.symm)

theorem findL_setA_self (l : List TEntry) (j : Nat) (k : DwAt) (v : AttrVal) (e : TEntry)
    (h : l.find? (fun e => e.id = j) = some e) :
    (l.map (fun e => if e.id = j then { e with attrs := setA e.attrs k v } else e)).find?
        (fun e => e.id = j)
      = some { e with attrs := setA e.attrs k v } := by
  induction l with
  | nil => simp [List.find?] at h
  | cons a r ih =>
    by_cases ha : a.id = j
    · have h' : a = e := by
        simpa [List.find?, ha] using h
      subst h'
      simp [List.find?, ha]
    · have h' : r.find? (fun e => e.id = j) = some e := by
        simpa [List.find?, ha] using h
      simp [List.find?, ha, ih h']

theorem findE_setAttr_self (st : IState) (j : Nat) (k : DwAt) (v : AttrVal) (e : TEntry)
    (h : findE st j = some e) :
    findE (setAttr st j k v) j = some { e with attrs := setA e.attrs k v } :=
  findL_setA_self st.entries j k v e h

theorem resolveSub_nextId_le (is64 : Bool) (sub : DwarfType) (st : IState)
    (IH : ∀ (pid : Nat) (s : IState), s.nextId ≤ (initType is64 pid sub s).nextId) :
    st.nextId ≤ (resolveSub is64 sub st).1.nextId := by
  cases hlk : lookupTM st.typeMap sub with
  | some j =>
    have hres : resolveSub is64 sub st = (st, j) := by rw [resolveSub, hlk]
    rw [hres]
  | none =>
    have hres : resolveSub is64 sub st =
        ({ initType is64 st.nextId sub (addEntry st (typeTag sub) (some sub)) with
            typeMap := (sub, st.nextId) ::
              (initType is64 st.nextId sub (addEntry st (typeTag sub) (some sub))).typeMap },
          st.nextId) := by
      rw [resolveSub, hlk]
    rw [hres]
    have h1 := IH st.nextId (addEntry st (typeTag sub) (some sub))
    have h2 : (addEntry st (typeTag sub) (some sub)).nextId = st.nextId + 1 := rfl
    show st.nextId ≤ (initType is64 st.nextId sub (addEntry st (typeTag sub) (some sub))).nextId
    omega

theorem initType_nextId_le (is64 : Bool) (j : Nat) (ty : DwarfType) (st : IState) :
    st.nextId ≤ (initType is64 j ty st).nextId := by
  cases ty with
  | primitive n s =>
    cases s <;> simp [initType, nextId_setAttr]
  | typedef n r => simp [initType]
  | struct fs => simp [initType]
  | pointer p =>
    rw [initType_pointer]
    simp only [nextId_setAttr]
    exact resolveSub_nextId_le is64 p st (fun pid s => initType_nextId_le is64 pid p s)
  | array inner len =>
    rw [initType_array]
    have hbase := resolveSub_nextId_le is64 inner st
      (fun pid s => initType_nextId_le is64 pid inner s)
    cases len <;> simp only [nextId_setAttr, nextId_addEntry] <;> omega
  | function r args =>
    rw [initType_function]
    simp only [nextId_setAttr]
    exact resolveSub_nextId_le is64 r st (fun pid s => initType_nextId_le is64 pid r s)
termination_by tsize ty
decreasing_by
  all_goals subst_vars
  all_goals simp [tsize]

theorem resolveSub_frame (is64 : Bool) (sub : DwarfType) (st : IState) (i : Nat)
    (IH : ∀ (pid : Nat) (s : IState) (i' : Nat), i' < s.nextId → i' ≠ pid →
      findE (initType is64 pid sub s) i' = findE s i')
    (hi : i < st.nextId) :
    findE (resolveSub is64 sub st).1 i = findE st i := by
  cases hlk : lookupTM st.typeMap sub with
  | some j =>
    have hres : resolveSub is64 sub st = (st, j) := by rw [resolveSub, hlk]
    rw [hres]
  | none =>
    have hres : resolveSub is64 sub st =
        ({ initType is64 st.nextId sub (addEntry st (typeTag sub) (some sub)) with
            typeMap := (sub, st.nextId) ::
              (initType is64 st.nextId sub (addEntry st (typeTag sub) (some sub))).typeMap },
          st.nextId) := by
      rw [resolveSub, hlk]
    rw [hres]
    show findE (initType is64 st.nextId sub (addEntry st (typeTag sub) (some sub))) i = findE st i
    rw [IH st.nextId (addEntry st (typeTag sub) (some sub)) i
      (by rw [nextId_addEntry]; omega) (by omega)]
    exact findE_addEntry_ne st _ _ i (by omega)

/-- `init_type` never touches the attributes of any pre-existing entry
other than the one it is initializing. -/
theorem initType_frame (is64 : Bool) (j : Nat) (ty : DwarfType) (st : IState) (i : Nat)
    (hi : i < st.nextId) (hij : i ≠ j) :
    findE (initType is64 j ty st) i = findE st i := by
  cases ty with
  | primitive n s =>
    cases s with
    | some v =>
      show findE (setAttr (setAttr st j .name (.str n)) j .byteSize (.udata v)) i = findE st i
      rw [findE_setAttr_ne _ i j _ _ hij, findE_setAttr_ne _ i j _ _ hij]
    | none =>
      show findE (setAttr st j .name (.str n)) i = findE st i
      exact findE_setAttr_ne _ i j _ _ hij
  | typedef n r => rfl
  | struct fs => rfl
  | pointer p =>
    rw [initType_pointer]
    rw [findE_setAttr_ne _ i j _ _ hij, findE_setAttr_ne _ i j _ _ hij]
    exact resolveSub_frame is64 p st i
      (fun pid s i' h1 h2 => initType_frame is64 pid p s i' h1 h2) hi
  | array inner len =>
    rw [initType_array]
    have hframe := resolveSub_frame is64 inner st i
      (fun pid s i' h1 h2 => initType_frame is64 pid inner s i' h1 h2) hi
    have hle : st.nextId ≤ (resolveSub is64 inner st).1.nextId :=
      resolveSub_nextId_le is64 inner st (fun pid s => initType_nextId_le is64 pid inner s)
    cases len with
    | some v =>
      rw [findE_setAttr_ne _ i _ _ _ (by rw [nextId_setAttr]; omega),
        findE_addEntry_ne _ _ _ i (by rw [nextId_setAttr]; omega),
        findE_setAttr_ne _ i j _ _ hij]
      exact hframe
    | none =>
      rw [findE_addEntry_ne _ _ _ i (by rw [nextId_setAttr]; omega),
        findE_setAttr_ne _ i j _ _ hij]
      exact hframe
  | function r args =>
    rw [initType_function]
    rw [findE_setAttr_ne _ i j _ _ hij]
    exact resolveSub_frame is64 r st i
      (fun pid s i' h1 h2 => initType_frame is64 pid r s i' h1 h2) hi
termination_by tsize ty
decreasing_by
  all_goals subst_vars
  all_goals simp [tsize]

theorem resolveSub_lookup_self (is64 : Bool) (sub : DwarfType) (st : IState) :
    lookupTM (resolveSub is64 sub st).1.typeMap sub = some (resolveSub is64 sub st).2 := by
  cases hlk : lookupTM st.typeMap sub with
  | some j =>
    have hres : resolveSub is64 sub st = (st, j) := by rw [resolveSub, hlk]
    rw [hres]
    exact hlk
  | none =>
    have hres : resolveSub is64 sub st =
        ({ initType is64 st.nextId sub (addEntry st (typeTag sub) (some sub)) with
            typeMap := (sub, st.nextId) ::
              (initType is64 st.nextId sub (addEntry st (typeTag sub) (some sub))).typeMap },
          st.nextId) := by
      rw [resolveSub, hlk]
    rw [hres]
    simp [lookupTM]

/-- C4: when `init_type` fills in a pointer-type entry, it sets the
entry's byte-size attribute to 8 on a 64-bit object and 4 on a 32-bit
object, and its type attribute to a reference to the pointee's entry id,
which is exactly the id the type map holds for the pointee afterwards. -/
theorem c4_pointer_byte_size (is64 : Bool) (p : DwarfType) (st : IState) (selfId : Nat)
    (hWF : WFState st) (hself : ∃ e, findE st selfId = some e) :
    getAttrOf (initType is64 selfId (.pointer p) st) selfId .byteSize
        = some (.udata (if is64 then 8 else 4)) ∧
    ∃ i, getAttrOf (initType is64 selfId (.pointer p) st) selfId .typeRef
        = some (.unitRef i) ∧
      lookupTM (initType is64 selfId (.pointer p) st).typeMap p = some i := by
  obtain ⟨e, he⟩ := hself
  have he' : st.entries.find? (fun x => x.id = selfId) = some e := he
  have hide : e.id = selfId := by simpa using List.find?_some he'
  have hmem : e ∈ st.entries := List.mem_of_find?_eq_some he'
  have hid : selfId < st.nextId := hide ▸ hWF e hmem
  have hframe : findE (resolveSub is64 p st).1 selfId = some e := by
    rw [resolveSub_frame is64 p st selfId
      (fun pid s i' h1 h2 => initType_frame is64 pid p s i' h1 h2) hid]
    exact he
  rw [initType_pointer]
  have h1 := findE_setAttr_self (resolveSub is64 p st).1 selfId .byteSize
    (.udata (if is64 then 8 else 4)) e hframe
  have h2 := findE_setAttr_self _ selfId .typeRef (.unitRef (resolveSub is64 p st).2) _ h1
  constructor
  · rw [getAttrOf, h2]
    simp [getA, setA]
  · refine ⟨(resolveSub is64 p st).2, ?_, ?_⟩
    · rw [getAttrOf, h2]
      simp [getA, setA]
    · show lookupTM (setAttr (setAttr (resolveSub is64 p st).1 selfId .byteSize
          (.udata (if is64 then 8 else 4))) selfId .typeRef
          (.unitRef (resolveSub is64 p st).2)).typeMap p = some (resolveSub is64 p st).2
      rw [typeMap_setAttr, typeMap_setAttr]
      exact resolveSub_lookup_self is64 p st

/-- C4 witness: a pointer to `int8_t` initialized into a fresh 64-bit
unit whose only entry is the pre-allocated pointer entry itself. -/
theorem c4_pointer_byte_size_witness :
    WFState ⟨1, [⟨0, .pointerType, some (.pointer (.primitive "int8_t" (some 1))), []⟩], []⟩ ∧
    (getAttrOf (initType true 0 (.pointer (.primitive "int8_t" (some 1)))
          ⟨1, [⟨0, .pointerType, some (.pointer (.primitive "int8_t" (some 1))), []⟩], []⟩) 0
          .byteSize
        = some (.udata (if true then 8 else 4)) ∧
     ∃ i, getAttrOf (initType true 0 (.pointer (.primitive "int8_t" (some 1)))
          ⟨1, [⟨0, .pointerType, some (.pointer (.primitive "int8_t" (some 1))), []⟩], []⟩) 0
          .typeRef
        = some (.unitRef i) ∧
      lookupTM (initType true 0 (.pointer (.primitive "int8_t" (some 1)))
          ⟨1, [⟨0, .pointerType, some (.pointer (.primitive "int8_t" (some 1))), []⟩], []⟩).typeMap
          (.primitive "int8_t" (some 1)) = some i) :=
  ⟨by intro e he; simp at he; simp [he], 
   c4_pointer_byte_size true (.primitive "int8_t" (some 1))
     ⟨1, [⟨0, .pointerType, some (.pointer (.primitive "int8_t" (some 1))), []⟩], []⟩ 0
     (by intro e he; simp at he; simp [he])
     ⟨⟨0, .pointerType, some (.pointer (.primitive "int8_t" (some 1))), []⟩, by
       simp [findE, List.find?]⟩⟩

/-! ## Anvill hint records (`src/anvill/mod.rs`) -/

/-- `Value<TaggedLocation>` (`src/anvill/mod.rs`): an optional location
and a type. -/
structure AnvillValue where
  location : Option TaggedLocation
  type : AnvillType
  deriving DecidableEq

/-- `Arg` (`src/anvill/mod.rs`): an optional name and a value. -/
structure AnvillArg where
  name : Option String
  value : AnvillValue
  deriving DecidableEq

/-- `Function` (`src/anvill/mod.rs`).  The `return_stack_pointer` field
uses the untagged location flavor, which carries the same data. -/
structure AnvillFunction where
  address : Nat
  returnAddress : Option AnvillValue
  returnStackPointer : Option AnvillValue
  parameters : Option (List AnvillArg)
  returnValues : Option (List AnvillValue)
  isVariadic : Option Bool
  isNoreturn : Option Bool
  callingConvention : Option Nat
  deriving DecidableEq

/-- `Variable` (`src/anvill/mod.rs`). -/
structure AnvillVariable where
  type : AnvillType
  address : Nat
  deriving DecidableEq

/-- `FunctionRef` (`src/anvill/mod.rs`): a function together with the name
the symbol table gave its address, if any. -/
structure FunctionRef where
  func : AnvillFunction
  name : Option String
  deriving DecidableEq

/-- `VarRef` (`src/anvill/mod.rs`). -/
structure VarRef where
  var : AnvillVariable
  name : Option String
  deriving DecidableEq

/-- `HashMap::get` on an address-keyed map. -/
def lookupA {α : Type} : List (Nat × α) → Nat → Option α
  | [], _ => none
  | (k, v) :: r, a => if k = a then some v else lookupA r a

/-- `HashMap::remove`: drop the binding for the key. -/
def eraseA {α : Type} (m : List (Nat × α)) (k : Nat) : List (Nat × α) :=
  m.filter (fun p => p.1 ≠ k)

/-- `HashMap::insert`: replace any existing binding for the key. -/
def insertA {α : Type} (m : List (Nat × α)) (k : Nat) (v : α) : List (Nat × α) :=
  (k, v) :: eraseA m k

/-! ## BSI hint records (`src/str_bsi/mod.rs`) -/

/-- `NamedVariable` (`src/str_bsi/mod.rs`): parameter or local with a
mandatory name and an optional type string. -/
structure NamedVariable where
  name : String
  type : Option String
  deriving DecidableEq

/-- `SourceMatch` (`src/str_bsi/mod.rs`).  Parameter and local maps are
keyed by variable-id strings. -/
structure SourceMatch where
  confidence : Nat
  file : Option String
  line : Option Nat
  functionName : String
  returnValue : Option String
  parameters : Option (List (String × NamedVariable))
  localVariables : Option (List (String × NamedVariable))
  deriving DecidableEq

/-- `Function` (`src/str_bsi/mod.rs`). -/
structure StrFunction where
  symbolName : Option String
  callingConvention : Option String
  returnRegisters : List String
  clobberedRegisters : List String
  sourceMatch : Option SourceMatch
  deriving DecidableEq

/-- `Function::parameters` (`src/str_bsi/mod.rs`): the values of the
source match's parameter map, when both exist. -/
def strParameters (f : StrFunction) : Option (List NamedVariable) :=
  match f.sourceMatch with
  | some sm =>
    match sm.parameters with
    | some ps => some (ps.map Prod.snd)
    | none => none
  | none => none

/-- `Function::local_vars` (`src/str_bsi/mod.rs`). -/
def strLocalVars (f : StrFunction) : Option (List NamedVariable) :=
  match f.sourceMatch with
  | some sm =>
    match sm.localVariables with
    | some vs => some (vs.map Prod.snd)
    | none => none
  | none => none

/-- `Function::file` (`src/str_bsi/mod.rs`). -/
def strFile (f : StrFunction) : Option String :=
  match f.sourceMatch with
  | some sm => sm.file
  | none => none

/-- `Function::line` (`src/str_bsi/mod.rs`). -/
def strLine (f : StrFunction) : Option Nat :=
  match f.sourceMatch with
  | some sm => sm.line
  | none => none

/-! ## Entries under update (`EntryRef` operations, `src/dwarf_entry.rs`)

A subprogram or variable entry is modelled as its attribute list together
with its children; the children the update functions create and delete are
one level deep (formal parameters, local variables, and whatever other
children the entry already had), so a child is an attribute list with a
tag. -/

/-- A child entry of a subprogram entry. -/
structure ChildEntry where
  tag : DwTag
  attrs : List (DwAt × AttrVal)
  deriving DecidableEq

/-- An entry being updated: its tag, attributes and children. -/
structure DEntry where
  tag : DwTag
  attrs : List (DwAt × AttrVal)
  children : List ChildEntry
  deriving DecidableEq

/-- `EntryRef::set` on the entry. -/
def setAttrD (e : DEntry) (k : DwAt) (v : AttrVal) : DEntry :=
  { e with attrs := setA e.attrs k v }

/-- `EntryRef::set` on a child. -/
def setAttrC (c : ChildEntry) (k : DwAt) (v : AttrVal) : ChildEntry :=
  { c with attrs := setA c.attrs k v }

/-- `EntryRef::update_name` (`src/dwarf_entry.rs`): the name to store, if
any — a provided name always wins, an existing name is kept when none is
provided, and with neither the name is synthesized from the prefix and the
address formatted as in `format!("{}{:08x}", ...)`. -/
def updateEntryName (oldName : Option AttrVal) (newName : Option String) (pfx : String)
    (addr : Nat) : Option String :=
  match oldName, newName with
  | none, none => some (pfx ++ hexPad8 addr)
  | some _, none => none
  | _, some n => some n

/-- Build the per-element results left to right, failing on the first
element that fails (the panic-in-a-loop shape of the source's `for`
loops over parameters and locals). -/
def mapOpt {α β : Type} (f : α → Option β) : List α → Option (List β)
  | [] => some []
  | a :: r =>
    match f a with
    | some b => (mapOpt f r).map (fun bs => b :: bs)
    | none => none

/-- The return-type step of `update_anvill_fn`: take the first return
value, look its converted type up in the type map (a missing mapping is a
`panic!`, hence `none`), and set the `type` attribute. -/
def anvillRetStep (tm : List (DwarfType × Nat)) (e : DEntry)
    (rvs : Option (List AnvillValue)) : Option DEntry :=
  match rvs with
  | some rvList =>
    match rvList.head? with
    | some rv =>
      match lookupTM tm (anvillToDwarf rv.type) with
      | some i => some (setAttrD e .typeRef (.unitRef i))
      | none => none
    | none => some e
  | none => some e

/-- One formal-parameter child built by `update_anvill_fn`: location if
supplied, then the type (always present on an anvill parameter; a missing
type-map entry is a `panic!`), then the name if provided. -/
def anvillParamChild (tm : List (DwarfType × Nat)) (p : AnvillArg) : Option ChildEntry :=
  let c0 : ChildEntry := ⟨.formalParameter, []⟩
  let c1 := match p.value.location with
    | some loc => setAttrC c0 .location (locToAttr loc)
    | none => c0
  match lookupTM tm (anvillToDwarf p.value.type) with
  | some i =>
    let c2 := setAttrC c1 .typeRef (.unitRef i)
    some (match p.name with
      | some n => setAttrC c2 .name (.str n)
      | none => c2)
  | none => none

/-- The parameter step of `update_anvill_fn`: when the record supplies a
parameter list, delete every existing formal-parameter child, then append
one new formal-parameter child per parameter, in order. -/
def anvillParamsStep (tm : List (DwarfType × Nat)) (e : DEntry)
    (ps : Option (List AnvillArg)) : Option DEntry :=
  match ps with
  | none => some e
  | some psList =>
    let kept := e.children.filter (fun c => c.tag ≠ .formalParameter)
    match mapOpt (anvillParamChild tm) psList with
    | some newChildren => some { e with children := kept ++ newChildren }
    | none => none

/-- The name step shared by the update functions: store the result of
`update_name`, when there is one. -/
def nameStep (e : DEntry) (newName : Option String) (pfx : String) (addr : Nat) : DEntry :=
  match updateEntryName (getA e.attrs .name) newName pfx addr with
  | some n => setAttrD e .name (.str n)
  | none => e

/-- The return-address step of `update_anvill_fn`. -/
def anvillRetAddrStep (e : DEntry) (ra : Option AnvillValue) : DEntry :=
  match ra with
  | some v =>
    match v.location with
    | some loc => setAttrD e .returnAddr (locToAttr loc)
    | none => e
  | none => e

/-- The noreturn step of `update_anvill_fn`. -/
def anvillNoretStep (e : DEntry) (b : Option Bool) : DEntry :=
  match b with
  | some v => setAttrD e .noreturn (.flag v)
  | none => e

/-- `EntryRef::update_anvill_fn` (`src/dwarf_entry.rs`).  The entry must
have a parseable `low_pc` (otherwise the source panics).  When the map has
a record for the address it is removed and applied: name via
`update_name`, return-address location, noreturn flag, the prototyped flag
(set unconditionally), the return type, and the parameter replacement. -/
def updateAnvillFn (e : DEntry) (anvillData : List (Nat × FunctionRef))
    (tm : List (DwarfType × Nat)) : Option (DEntry × List (Nat × FunctionRef)) :=
  match getA e.attrs .lowPc with
  | none => none
  | some lowAttr =>
    match lowPcToU64 lowAttr with
    | none => none
    | some startAddress =>
      match lookupA anvillData startAddress with
      | none => some (e, anvillData)
      | some fnData =>
        let rest := eraseA anvillData startAddress
        let e4 := setAttrD
          (anvillNoretStep
            (anvillRetAddrStep (nameStep e fnData.name "FUN_" startAddress)
              fnData.func.returnAddress)
            fnData.func.isNoreturn)
          .prototyped (.flag true)
        match anvillRetStep tm e4 fnData.func.returnValues with
        | none => none
        | some e5 =>
          match anvillParamsStep tm e5 fnData.func.parameters with
          | none => none
          | some e6 => some (e6, rest)

/-- One formal-parameter child built by `update_str_fn`: the source sets
the `type` and `name` attributes only inside `if let Some(ref ty) =
param.r#type`, so a parameter without a type yields a child with no
attributes at all — even though the BSI parameter always carries a name. -/
def strParamChild (tm : List (DwarfType × Nat)) (p : NamedVariable) : Option ChildEntry :=
  let c0 : ChildEntry := ⟨.formalParameter, []⟩
  match p.type with
  | none => some c0
  | some ty =>
    match strToDwarf ty with
    | none => none
    | some dt =>
      match lookupTM tm dt with
      | some i => some (setAttrC (setAttrC c0 .typeRef (.unitRef i)) .name (.str p.name))
      | none => none

/-- One local-variable child built by `update_str_fn`; same as a
parameter child but tagged `variable`. -/
def strLocalChild (tm : List (DwarfType × Nat)) (p : NamedVariable) : Option ChildEntry :=
  let c0 : ChildEntry := ⟨.variableTag, []⟩
  match p.type with
  | none => some c0
  | some ty =>
    match strToDwarf ty with
    | none => none
    | some dt =>
      match lookupTM tm dt with
      | some i => some (setAttrC (setAttrC c0 .typeRef (.unitRef i)) .name (.str p.name))
      | none => none

/-- The decl-file step of `update_str_fn`. -/
def strFileStep (e : DEntry) (f : Option String) : DEntry :=
  match f with
  | some v => setAttrD e .declFile (.str v)
  | none => e

/-- The decl-line step of `update_str_fn`. -/
def strLineStep (e : DEntry) (l : Option Nat) : DEntry :=
  match l with
  | some v => setAttrD e .declLine (.data8 v)
  | none => e

/-- The parameter-replacement step of `update_str_fn`: when the record
supplies a parameter list, delete every existing formal-parameter child
and append one new child per parameter, in order. -/
def strParamsStep (tm : List (DwarfType × Nat)) (e : DEntry)
    (ps : Option (List NamedVariable)) : Option DEntry :=
  match ps with
  | none => some e
  | some psList =>
    let kept := e.children.filter (fun c => c.tag ≠ .formalParameter)
    match mapOpt (strParamChild tm) psList with
    | some newChildren => some { e with children := kept ++ newChildren }
    | none => none

/-- The local-variable step of `update_str_fn`: children are appended,
never deleted. -/
def strLocalsStep (tm : List (DwarfType × Nat)) (e : DEntry)
    (vs : Option (List NamedVariable)) : Option DEntry :=
  match vs with
  | none => some e
  | some vsList =>
    match mapOpt (strLocalChild tm) vsList with
    | some newChildren => some { e with children := e.children ++ newChildren }
    | none => none

/-- `EntryRef::update_str_fn` (`src/dwarf_entry.rs`): name via
`update_name` on the symbol name, `decl_file`/`decl_line` from the source
match, parameter replacement (delete-then-append) when a parameter list is
present, then local-variable children appended (never deleted). -/
def updateStrFn (e : DEntry) (strData : List (Nat × StrFunction))
    (tm : List (DwarfType × Nat)) : Option (DEntry × List (Nat × StrFunction)) :=
  match getA e.attrs .lowPc with
  | none => none
  | some lowAttr =>
    match lowPcToU64 lowAttr with
    | none => none
    | some startAddress =>
      match lookupA strData startAddress with
      | none => some (e, strData)
      | some fnData =>
        let rest := eraseA strData startAddress
        let e3 := strLineStep
          (strFileStep (nameStep e fnData.symbolName "FUN_" startAddress) (strFile fnData))
          (strLine fnData)
        match strParamsStep tm e3 (strParameters fnData) with
        | none => none
        | some e4 =>
          match strLocalsStep tm e4 (strLocalVars fnData) with
          | none => none
          | some e5 => some (e5, rest)

/-- `EntryRef::update_var` (`src/dwarf_entry.rs`): the entry must have a
`location` attribute; the record is found by comparing each map key,
encoded with `addr_to_attr`, against that attribute.  When found, the name
is updated via `update_name` with the `VAR_` prefix and the record's
address, and the `type` attribute is set from the type map (a missing
mapping panics). -/
def updateVar (e : DEntry) (varData : List (Nat × VarRef))
    (tm : List (DwarfType × Nat)) : Option (DEntry × List (Nat × VarRef)) :=
  match getA e.attrs .location with
  | none => none
  | some loc =>
    match varData.find? (fun p => addrToAttr p.1 = loc) with
    | none => some (e, varData)
    | some p =>
      let rest := eraseA varData p.1
      let e1 := nameStep e p.2.name "VAR_" p.2.var.address
      match lookupTM tm (anvillToDwarf p.2.var.type) with
      | some i => some (setAttrD e1 .typeRef (.unitRef i), rest)
      | none => none

/-- `EntryRef::init_anvill_fn` (`src/dwarf_entry.rs`): set `low_pc` to the
address, then run the update. -/
def initAnvillFn (e : DEntry) (addr : Nat) (anvillData : List (Nat × FunctionRef))
    (tm : List (DwarfType × Nat)) : Option (DEntry × List (Nat × FunctionRef)) :=
  updateAnvillFn (setAttrD e .lowPc (.addr addr)) anvillData tm

/-- `EntryRef::init_str_fn` (`src/dwarf_entry.rs`). -/
def initStrFn (e : DEntry) (addr : Nat) (strData : List (Nat × StrFunction))
    (tm : List (DwarfType × Nat)) : Option (DEntry × List (Nat × StrFunction)) :=
  updateStrFn (setAttrD e .lowPc (.addr addr)) strData tm

/-! ## Parameter replacement (C2) -/

theorem getA_setA_self (attrs : List (DwAt × AttrVal)) (k : DwAt) (v : AttrVal) :
    getA (setA attrs k v) k = some v := by
  simp [getA, setA]

theorem getA_setA_ne (attrs : List (DwAt × AttrVal)) (k : DwAt) (v : AttrVal) (a : DwAt)
    (h : ¬ k = a) : getA (setA attrs k v) a = getA attrs a := by
  simp [getA, setA, h]

theorem children_setAttrD (e : DEntry) (k : DwAt) (v : AttrVal) :
    (setAttrD e k v).children = e.children := rfl

theorem children_nameStep (e : DEntry) (n : Option String) (pfx : String) (addr : Nat) :
    (nameStep e n pfx addr).children = e.children := by
  unfold nameStep
  cases updateEntryName (getA e.attrs .name) n pfx addr <;> rfl

theorem children_anvillRetAddrStep (e : DEntry) (ra : Option AnvillValue) :
    (anvillRetAddrStep e ra).children = e.children := by
  unfold anvillRetAddrStep
  cases ra with
  | none => rfl
  | some v => cases hl : v.location <;> simp [hl, setAttrD]

theorem children_anvillNoretStep (e : DEntry) (b : Option Bool) :
    (anvillNoretStep e b).children = e.children := by
  unfold anvillNoretStep
  cases b <;> rfl

theorem children_strFileStep (e : DEntry) (f : Option String) :
    (strFileStep e f).children = e.children := by
  unfold strFileStep
  cases f <;> rfl

theorem children_strLineStep (e : DEntry) (l : Option Nat) :
    (strLineStep e l).children = e.children := by
  unfold strLineStep
  cases l <;> rfl

theorem anvillRetStep_children (tm : List (DwarfType × Nat)) (e : DEntry)
    (rvs : Option (List AnvillValue)) (e' : DEntry)
    (h : anvillRetStep tm e rvs = some e') : e'.children = e.children := by
  cases rvs with
  | none =>
    simp [anvillRetStep] at h
    subst h
    rfl
  | some rvList =>
    cases rvList with
    | nil =>
      simp [anvillRetStep] at h
      subst h
      rfl
    | cons rv rest =>
      cases hlk : lookupTM tm (anvillToDwarf rv.type) with
      | none => simp [anvillRetStep, hlk] at h
      | some i =>
        simp [anvillRetStep, hlk] at h
        subst h
        rfl

theorem mapOpt_forall₂ {α β : Type} (f : α → Option β) :
    ∀ (l : List α) (cs : List β), mapOpt f l = some cs →
      List.Forall₂ (fun a b => f a = some b) l cs := by
  intro l
  induction l with
  | nil =>
    intro cs h
    simp [mapOpt] at h
    subst h
    exact .nil
  | cons a r ih =>
    intro cs h
    unfold mapOpt at h
    cases hfa : f a with
    | none => rw [hfa] at h; cases h
    | some b =>
      rw [hfa] at h
      cases hrest : mapOpt f r with
      | none => rw [hrest] at h; cases h
      | some bs =>
        rw [hrest] at h
        simp at h
        subst h
        exact .cons hfa (ih bs hrest)

/-- What one anvill parameter child satisfies relative to the parameter
it was created from. -/
def anvChildOk (tm : List (DwarfType × Nat)) (p : AnvillArg) (c : ChildEntry) : Prop :=
  c.tag = .formalParameter ∧
  getA c.attrs .typeRef = (lookupTM tm (anvillToDwarf p.value.type)).map AttrVal.unitRef ∧
  getA c.attrs .name = p.name.map AttrVal.str ∧
  getA c.attrs .location = p.value.location.map locToAttr

/-- What one BSI parameter child satisfies relative to the parameter it
was created from: with no type, the child has no attributes at all (the
provided name is dropped); with a type, the type reference and the name
are set. -/
def strChildOk (tm : List (DwarfType × Nat)) (p : NamedVariable) (c : ChildEntry) : Prop :=
  c.tag = .formalParameter ∧
  (match p.type with
   | none => c.attrs = []
   | some ty => ∃ dt i, strToDwarf ty = some dt ∧ lookupTM tm dt = some i ∧
       getA c.attrs .typeRef = some (.unitRef i) ∧
       getA c.attrs .name = some (.str p.name))

theorem anvillParamChild_ok (tm : List (DwarfType × Nat)) (p : AnvillArg) (c : ChildEntry)
    (h : anvillParamChild tm p = some c) : anvChildOk tm p c := by
  unfold anvillParamChild at h
  cases hlk : lookupTM tm (anvillToDwarf p.value.type) with
  | none =>
    rw [hlk] at h
    cases hloc : p.value.location <;> rw [hloc] at h <;> cases h
  | some i =>
    rw [hlk] at h
    cases hloc : p.value.location <;> rw [hloc] at h <;>
      cases hname : p.name <;> rw [hname] at h <;> cases h <;>
      refine ⟨rfl, ?_, ?_, ?_⟩ <;>
      simp [getA, setA, setAttrC, hlk, hloc, hname]

theorem strParamChild_ok (tm : List (DwarfType × Nat)) (p : NamedVariable) (c : ChildEntry)
    (h : strParamChild tm p = some c) : strChildOk tm p c := by
  cases hty : p.type with
  | none =>
    simp [strParamChild, hty] at h
    subst h
    exact ⟨rfl, by rw [hty]⟩
  | some ty =>
    cases hdt : strToDwarf ty with
    | none => simp [strParamChild, hty, hdt] at h
    | some dt =>
      cases hlk : lookupTM tm dt with
      | none => simp [strParamChild, hty, hdt, hlk] at h
      | some i =>
        simp [strParamChild, hty, hdt, hlk] at h
        subst h
        refine ⟨rfl, ?_⟩
        rw [hty]
        exact ⟨dt, i, hdt, hlk, by simp [getA, setA, setAttrC], by simp [getA, setA, setAttrC]⟩

theorem strLocalChild_tag (tm : List (DwarfType × Nat)) (p : NamedVariable) (c : ChildEntry)
    (h : strLocalChild tm p = some c) : c.tag = .variableTag := by
  cases hty : p.type with
  | none =>
    simp [strLocalChild, hty] at h
    subst h
    rfl
  | some ty =>
    cases hdt : strToDwarf ty with
    | none => simp [strLocalChild, hty, hdt] at h
    | some dt =>
      cases hlk : lookupTM tm dt with
      | none => simp [strLocalChild, hty, hdt, hlk] at h
      | some i =>
        simp [strLocalChild, hty, hdt, hlk] at h
        subst h
        rfl

theorem forall₂_tag_filter_eq {α : Type} (ps : List α) (cs : List ChildEntry)
    (h : List.Forall₂ (fun _ c => c.tag = DwTag.formalParameter) ps cs) :
    cs.filter (fun c => c.tag = .formalParameter) = cs := by
  induction h with
  | nil => rfl
  | cons hpc _ ih =>
    rename_i a b l1 l2
    simp [List.filter, hpc, ih]

theorem filter_of_kept (l : List ChildEntry) :
    (l.filter (fun c => c.tag ≠ .formalParameter)).filter
        (fun c => c.tag = .formalParameter) = [] := by
  induction l with
  | nil => rfl
  | cons c r ih =>
    by_cases hc : c.tag = DwTag.formalParameter <;> simp [List.filter, hc, ih]

theorem filter_of_locals (l : List ChildEntry) (h : ∀ c ∈ l, c.tag = DwTag.variableTag) :
    l.filter (fun c => c.tag = .formalParameter) = [] := by
  induction l with
  | nil => rfl
  | cons c r ih =>
    have hc := h c (List.mem_cons_self c r)
    simp [List.filter, hc]
    intro c' hc'
    simp [h c' (List.mem_cons_of_mem c hc')]

theorem forall₂_mem_right {α β : Type} {R : α → β → Prop} :
    ∀ {l1 : List α} {l2 : List β}, List.Forall₂ R l1 l2 → ∀ b ∈ l2, ∃ a ∈ l1, R a b := by
  intro l1 l2 h
  induction h with
  | nil => intro b hb; cases hb
  | cons hr ht ih =>
    intro b hb
    rcases List.mem_cons.mp hb with rfl | hb
    · exact ⟨_, List.mem_cons_self _ _, hr⟩
    · obtain ⟨a, ha, hra⟩ := ih b hb
      exact ⟨a, List.mem_cons_of_mem _ ha, hra⟩

theorem updateAnvillFn_eq (e : DEntry) (data : List (Nat × FunctionRef))
    (tm : List (DwarfType × Nat)) (addr : Nat) (fd : FunctionRef)
    (hlow : getA e.attrs .lowPc = some (.addr addr))
    (hl : lookupA data addr = some fd) :
    updateAnvillFn e data tm =
      (match anvillRetStep tm
          (setAttrD
            (anvillNoretStep
              (anvillRetAddrStep (nameStep e fd.name "FUN_" addr) fd.func.returnAddress)
              fd.func.isNoreturn)
            .prototyped (.flag true))
          fd.func.returnValues with
       | none => none
       | some e5 =>
         match anvillParamsStep tm e5 fd.func.parameters with
         | none => none
         | some e6 => some (e6, eraseA data addr)) := by
  simp [updateAnvillFn, hlow, lowPcToU64, hl]

theorem updateStrFn_eq (e : DEntry) (data : List (Nat × StrFunction))
    (tm : List (DwarfType × Nat)) (addr : Nat) (fd : StrFunction)
    (hlow : getA e.attrs .lowPc = some (.addr addr))
    (hl : lookupA data addr = some fd) :
    updateStrFn e data tm =
      (match strParamsStep tm
          (strLineStep
            (strFileStep (nameStep e fd.symbolName "FUN_" addr) (strFile fd))
            (strLine fd))
          (strParameters fd) with
       | none => none
       | some e4 =>
         match strLocalsStep tm e4 (strLocalVars fd) with
         | none => none
         | some e5 => some (e5, eraseA data addr)) := by
  simp [updateStrFn, hlow, lowPcToU64, hl]

/-- C2, as the code implements it: update-function first deletes all
existing formal-parameter children and then appends one new
formal-parameter child per hint parameter, in the order the record's
parameter list supplies them, so afterwards the entry's formal-parameter
children are exactly the record's parameters.  On the anvill path each new
child carries its location when supplied, its type from the type map, and
its name when provided.  On the BSI path a parameter's type and name are
set only when the parameter carries a type; a parameter without a type
yields an attribute-less child even when its (mandatory) name is present.
BSI local variables are appended after the parameters as `variable`
children and are never deleted. -/
theorem c2_parameter_replacement :
    (∀ (e : DEntry) (data : List (Nat × FunctionRef)) (tm : List (DwarfType × Nat))
       (addr : Nat) (fd : FunctionRef) (ps : List AnvillArg)
       (e' : DEntry) (d' : List (Nat × FunctionRef)),
      getA e.attrs .lowPc = some (.addr addr) →
      lookupA data addr = some fd →
      fd.func.parameters = some ps →
      updateAnvillFn e data tm = some (e', d') →
      ∃ newCs,
        e'.children = e.children.filter (fun c => c.tag ≠ .formalParameter) ++ newCs ∧
        List.Forall₂ (anvChildOk tm) ps newCs ∧
        e'.children.filter (fun c => c.tag = .formalParameter) = newCs) ∧
    (∀ (e : DEntry) (data : List (Nat × StrFunction)) (tm : List (DwarfType × Nat))
       (addr : Nat) (fd : StrFunction) (ps : List NamedVariable)
       (e' : DEntry) (d' : List (Nat × StrFunction)),
      getA e.attrs .lowPc = some (.addr addr) →
      lookupA data addr = some fd →
      strParameters fd = some ps →
      updateStrFn e data tm = some (e', d') →
      ∃ newCs locals,
        e'.children = e.children.filter (fun c => c.tag ≠ .formalParameter)
          ++ newCs ++ locals ∧
        List.Forall₂ (strChildOk tm) ps newCs ∧
        (∀ c ∈ locals, c.tag = DwTag.variableTag) ∧
        e'.children.filter (fun c => c.tag = .formalParameter) = newCs) := by
  constructor
  · intro e data tm addr fd ps e' d' hlow hl hps hupd
    rw [updateAnvillFn_eq e data tm addr fd hlow hl] at hupd
    cases hret : anvillRetStep tm
        (setAttrD
          (anvillNoretStep
            (anvillRetAddrStep (nameStep e fd.name "FUN_" addr) fd.func.returnAddress)
            fd.func.isNoreturn)
          .prototyped (.flag true))
        fd.func.returnValues with
    | none => rw [hret] at hupd; cases hupd
    | some e5 =>
      rw [hret, hps] at hupd
      have hch5 : e5.children = e.children := by
        rw [anvillRetStep_children tm _ _ e5 hret, children_setAttrD,
          children_anvillNoretStep, children_anvillRetAddrStep, children_nameStep]
      cases hmo : mapOpt (anvillParamChild tm) ps with
      | none => simp [anvillParamsStep, hmo] at hupd
      | some newCs =>
        simp only [anvillParamsStep, hmo] at hupd
        rw [Option.some_inj, Prod.mk.injEq] at hupd
        obtain ⟨he', hd'⟩ := hupd
        subst he'
        have hfa : List.Forall₂ (anvChildOk tm) ps newCs :=
          (mapOpt_forall₂ (anvillParamChild tm) ps newCs hmo).imp
            (fun {p c} hpc => anvillParamChild_ok tm p c hpc)
        have htags : List.Forall₂ (fun _ c => c.tag = DwTag.formalParameter) ps newCs :=
          hfa.imp (fun {p c} hpc => hpc.1)
        refine ⟨newCs, ?_, hfa, ?_⟩
        · show e5.children.filter (fun c => c.tag ≠ .formalParameter) ++ newCs
            = e.children.filter (fun c => c.tag ≠ .formalParameter) ++ newCs
          rw [hch5]
        · show (e5.children.filter (fun c => c.tag ≠ .formalParameter) ++ newCs).filter
              (fun c => c.tag = .formalParameter) = newCs
          rw [List.filter_append, filter_of_kept,
            forall₂_tag_filter_eq ps newCs htags, List.nil_append]
  · intro e data tm addr fd ps e' d' hlow hl hps hupd
    rw [updateStrFn_eq e data tm addr fd hlow hl] at hupd
    rw [hps] at hupd
    have hch3 : (strLineStep
        (strFileStep (nameStep e fd.symbolName "FUN_" addr) (strFile fd))
        (strLine fd)).children = e.children := by
      rw [children_strLineStep, children_strFileStep, children_nameStep]
    cases hmo : mapOpt (strParamChild tm) ps with
    | none => simp [strParamsStep, hmo] at hupd
    | some newCs =>
      simp only [strParamsStep, hmo] at hupd
      have hfa : List.Forall₂ (strChildOk tm) ps newCs :=
        (mapOpt_forall₂ (strParamChild tm) ps newCs hmo).imp
          (fun {p c} hpc => strParamChild_ok tm p c hpc)
      have htags : List.Forall₂ (fun _ c => c.tag = DwTag.formalParameter) ps newCs :=
        hfa.imp (fun {p c} hpc => hpc.1)
      cases hlv : strLocalVars fd with
      | none =>
        simp only [strLocalsStep, hlv] at hupd
        rw [Option.some_inj, Prod.mk.injEq] at hupd
        obtain ⟨he', hd'⟩ := hupd
        subst he'
        refine ⟨newCs, [], ?_, hfa, by simp, ?_⟩
        · show (strLineStep (strFileStep (nameStep e fd.symbolName "FUN_" addr) (strFile fd))
              (strLine fd)).children.filter (fun c => c.tag ≠ .formalParameter) ++ newCs
            = e.children.filter (fun c => c.tag ≠ .formalParameter) ++ newCs ++ []
          rw [hch3, List.append_nil]
        · show ((strLineStep (strFileStep (nameStep e fd.symbolName "FUN_" addr) (strFile fd))
              (strLine fd)).children.filter (fun c => c.tag ≠ .formalParameter)
              ++ newCs).filter (fun c => c.tag = .formalParameter) = newCs
          rw [hch3, List.filter_append, filter_of_kept,
            forall₂_tag_filter_eq ps newCs htags, List.nil_append]
      | some vs =>
        cases hml : mapOpt (strLocalChild tm) vs with
        | none => simp [strLocalsStep, hlv, hml] at hupd
        | some lcs =>
          simp only [strLocalsStep, hlv, hml] at hupd
          rw [Option.some_inj, Prod.mk.injEq] at hupd
          obtain ⟨he', hd'⟩ := hupd
          subst he'
          have hloctags : ∀ c ∈ lcs, c.tag = DwTag.variableTag := by
            intro c hc
            have hfa2 := mapOpt_forall₂ (strLocalChild tm) vs lcs hml
            obtain ⟨v, -, hvc⟩ := forall₂_mem_right hfa2 c hc
            exact strLocalChild_tag tm v c hvc
          refine ⟨newCs, lcs, ?_, hfa, hloctags, ?_⟩
          · show (strLineStep (strFileStep (nameStep e fd.symbolName "FUN_" addr)
                (strFile fd)) (strLine fd)).children.filter
                  (fun c => c.tag ≠ .formalParameter) ++ newCs ++ lcs
              = e.children.filter (fun c => c.tag ≠ .formalParameter) ++ newCs ++ lcs
            rw [hch3]
          · show ((strLineStep (strFileStep (nameStep e fd.symbolName "FUN_" addr)
                (strFile fd)) (strLine fd)).children.filter
                  (fun c => c.tag ≠ .formalParameter)
              ++ newCs ++ lcs).filter (fun c => c.tag = .formalParameter) = newCs
            rw [hch3, List.filter_append, List.filter_append, filter_of_kept,
              forall₂_tag_filter_eq ps newCs htags, filter_of_locals lcs hloctags,
              List.nil_append, List.append_nil]

/-- C2 counterexample: a BSI record for the subprogram at `0x1000` whose
single parameter is named `"x"` but carries no type.  The update appends
one formal-parameter child, but that child has no attributes at all — in
particular no `name` — even though the record provided the name, so the
claim's "its name if provided" fails on the BSI path. -/
theorem c2_parameter_replacement_counterexample :
    updateStrFn ⟨.subprogram, [(.lowPc, .addr 4096)], []⟩
        [(4096, ⟨none, none, [], [], some ⟨1, none, none, "f", none,
          some [("p1", ⟨"x", none⟩)], none⟩⟩)] []
      = some (⟨.subprogram, [(.name, .str "FUN_00001000"), (.lowPc, .addr 4096)],
          [⟨.formalParameter, []⟩]⟩, []) ∧
    (strParameters ⟨none, none, [], [], some ⟨1, none, none, "f", none,
        some [("p1", ⟨"x", none⟩)], none⟩⟩ = some [⟨"x", none⟩] ∧
      getA (ChildEntry.mk .formalParameter []).attrs .name = none) := by
  exact ⟨by decide, by decide, rfl⟩

/-- C2 witness: an anvill record with one typed, named parameter applied
to a subprogram that already has a differently-named formal parameter. -/
theorem c2_parameter_replacement_witness :
    getA (DEntry.mk .subprogram [(.lowPc, .addr 4096)]
        [⟨.formalParameter, [(.name, .str "old")]⟩]).attrs .lowPc
      = some (.addr 4096) ∧
    updateAnvillFn ⟨.subprogram, [(.lowPc, .addr 4096)],
        [⟨.formalParameter, [(.name, .str "old")]⟩]⟩
        [(4096, ⟨⟨4096, none, none, some [⟨some "a", ⟨none, .primitive .i⟩⟩],
          none, none, none, none⟩, some "myfn"⟩)]
        [(.primitive "int32_t" (some 4), 7)]
      = some (⟨.subprogram,
          [(.prototyped, .flag true), (.name, .str "myfn"), (.lowPc, .addr 4096)],
          [⟨.formalParameter, [(.name, .str "a"), (.typeRef, .unitRef 7)]⟩]⟩, []) ∧
    (∃ newCs,
      (DEntry.mk .subprogram
          [(.prototyped, .flag true), (.name, .str "myfn"), (.lowPc, .addr 4096)]
          [⟨.formalParameter, [(.name, .str "a"), (.typeRef, .unitRef 7)]⟩]).children
        = (DEntry.mk .subprogram [(.lowPc, .addr 4096)]
            [⟨.formalParameter, [(.name, .str "old")]⟩]).children.filter
              (fun c => c.tag ≠ .formalParameter) ++ newCs ∧
      List.Forall₂ (anvChildOk [(.primitive "int32_t" (some 4), 7)])
        [⟨some "a", ⟨none, .primitive .i⟩⟩] newCs ∧
      (DEntry.mk .subprogram
          [(.prototyped, .flag true), (.name, .str "myfn"), (.lowPc, .addr 4096)]
          [⟨.formalParameter, [(.name, .str "a"), (.typeRef, .unitRef 7)]⟩]).children.filter
            (fun c => c.tag = .formalParameter) = newCs) :=
  ⟨by decide, by decide,
   c2_parameter_replacement.1
     ⟨.subprogram, [(.lowPc, .addr 4096)], [⟨.formalParameter, [(.name, .str "old")]⟩]⟩
     [(4096, ⟨⟨4096, none, none, some [⟨some "a", ⟨none, .primitive .i⟩⟩],
       none, none, none, none⟩, some "myfn"⟩)]
     [(.primitive "int32_t" (some 4), 7)]
     4096
     ⟨⟨4096, none, none, some [⟨some "a", ⟨none, .primitive .i⟩⟩],
       none, none, none, none⟩, some "myfn"⟩
     [⟨some "a", ⟨none, .primitive .i⟩⟩]
     ⟨.subprogram, [(.prototyped, .flag true), (.name, .str "myfn"), (.lowPc, .addr 4096)],
       [⟨.formalParameter, [(.name, .str "a"), (.typeRef, .unitRef 7)]⟩]⟩
     []
     (by decide) (by decide) rfl (by decide)⟩

/-! ## Name updates (C7) and the prototyped flag (C8) -/

theorem getA_setAttrD_ne (e : DEntry) (k : DwAt) (v : AttrVal) (a : DwAt) (h : ¬ k = a) :
    getA (setAttrD e k v).attrs a = getA e.attrs a :=
  getA_setA_ne e.attrs k v a h

theorem getA_nameStep_name (e : DEntry) (n : Option String) (pfx : String) (addr : Nat) :
    getA (nameStep e n pfx addr).attrs .name =
      (match getA e.attrs .name, n with
       | none, none => some (.str (pfx ++ hexPad8 addr))
       | some v, none => some v
       | _, some nm => some (.str nm)) := by
  unfold nameStep updateEntryName
  cases ho : getA e.attrs .name <;> cases n <;>
    simp [ho, getA_setA_self, setAttrD]

theorem getA_nameStep_ne (e : DEntry) (n : Option String) (pfx : String) (addr : Nat)
    (a : DwAt) (h : ¬ DwAt.name = a) :
    getA (nameStep e n pfx addr).attrs a = getA e.attrs a := by
  unfold nameStep
  cases updateEntryName (getA e.attrs .name) n pfx addr with
  | none => rfl
  | some nm => exact getA_setAttrD_ne e .name (.str nm) a h

theorem getA_anvillRetAddrStep_ne (e : DEntry) (ra : Option AnvillValue) (a : DwAt)
    (h : ¬ DwAt.returnAddr = a) :
    getA (anvillRetAddrStep e ra).attrs a = getA e.attrs a := by
  unfold anvillRetAddrStep
  cases ra with
  | none => rfl
  | some v =>
    cases hl : v.location <;> simp [hl, setAttrD, getA_setA_ne, h]

theorem getA_anvillNoretStep_ne (e : DEntry) (b : Option Bool) (a : DwAt)
    (h : ¬ DwAt.noreturn = a) :
    getA (anvillNoretStep e b).attrs a = getA e.attrs a := by
  unfold anvillNoretStep
  cases b with
  | none => rfl
  | some v => exact getA_setAttrD_ne e .noreturn (.flag v) a h

theorem getA_strFileStep_ne (e : DEntry) (f : Option String) (a : DwAt)
    (h : ¬ DwAt.declFile = a) :
    getA (strFileStep e f).attrs a = getA e.attrs a := by
  unfold strFileStep
  cases f with
  | none => rfl
  | some v => exact getA_setAttrD_ne e .declFile (.str v) a h

theorem getA_strLineStep_ne (e : DEntry) (l : Option Nat) (a : DwAt)
    (h : ¬ DwAt.declLine = a) :
    getA (strLineStep e l).attrs a = getA e.attrs a := by
  unfold strLineStep
  cases l with
  | none => rfl
  | some v => exact getA_setAttrD_ne e .declLine (.data8 v) a h

theorem getA_anvillRetStep_ne (tm : List (DwarfType × Nat)) (e : DEntry)
    (rvs : Option (List AnvillValue)) (e' : DEntry) (a : DwAt)
    (h : anvillRetStep tm e rvs = some e') (ha : ¬ DwAt.typeRef = a) :
    getA e'.attrs a = getA e.attrs a := by
  cases rvs with
  | none =>
    simp [anvillRetStep] at h
    subst h
    rfl
  | some rvList =>
    cases rvList with
    | nil =>
      simp [anvillRetStep] at h
      subst h
      rfl
    | cons rv rest =>
      cases hlk : lookupTM tm (anvillToDwarf rv.type) with
      | none => simp [anvillRetStep, hlk] at h
      | some i =>
        simp [anvillRetStep, hlk] at h
        subst h
        exact getA_setAttrD_ne e .typeRef (.unitRef i) a ha

theorem attrs_anvillParamsStep (tm : List (DwarfType × Nat)) (e : DEntry)
    (ps : Option (List AnvillArg)) (e' : DEntry)
    (h : anvillParamsStep tm e ps = some e') : e'.attrs = e.attrs := by
  cases ps with
  | none =>
    simp [anvillParamsStep] at h
    subst h
    rfl
  | some psList =>
    cases hmo : mapOpt (anvillParamChild tm) psList with
    | none => simp [anvillParamsStep, hmo] at h
    | some cs =>
      simp only [anvillParamsStep, hmo] at h
      rw [Option.some_inj] at h
      subst h
      rfl

theorem attrs_strParamsStep (tm : List (DwarfType × Nat)) (e : DEntry)
    (ps : Option (List NamedVariable)) (e' : DEntry)
    (h : strParamsStep tm e ps = some e') : e'.attrs = e.attrs := by
  cases ps with
  | none =>
    simp [strParamsStep] at h
    subst h
    rfl
  | some psList =>
    cases hmo : mapOpt (strParamChild tm) psList with
    | none => simp [strParamsStep, hmo] at h
    | some cs =>
      simp only [strParamsStep, hmo] at h
      rw [Option.some_inj] at h
      subst h
      rfl

theorem attrs_strLocalsStep (tm : List (DwarfType × Nat)) (e : DEntry)
    (vs : Option (List NamedVariable)) (e' : DEntry)
    (h : strLocalsStep tm e vs = some e') : e'.attrs = e.attrs := by
  cases vs with
  | none =>
    simp [strLocalsStep] at h
    subst h
    rfl
  | some vsList =>
    cases hmo : mapOpt (strLocalChild tm) vsList with
    | none => simp [strLocalsStep, hmo] at h
    | some cs =>
      simp only [strLocalsStep, hmo] at h
      rw [Option.some_inj] at h
      subst h
      rfl

theorem updateAnvillFn_name (e : DEntry) (data : List (Nat × FunctionRef))
    (tm : List (DwarfType × Nat)) (addr : Nat) (fd : FunctionRef) (e' : DEntry)
    (d' : List (Nat × FunctionRef))
    (hlow : getA e.attrs .lowPc = some (.addr addr))
    (hl : lookupA data addr = some fd)
    (hupd : updateAnvillFn e data tm = some (e', d')) :
    getA e'.attrs .name =
      (match getA e.attrs .name, fd.name with
       | none, none => some (.str ("FUN_" ++ hexPad8 addr))
       | some v, none => some v
       | _, some nm => some (.str nm)) := by
  rw [updateAnvillFn_eq e data tm addr fd hlow hl] at hupd
  cases hret : anvillRetStep tm
      (setAttrD
        (anvillNoretStep
          (anvillRetAddrStep (nameStep e fd.name "FUN_" addr) fd.func.returnAddress)
          fd.func.isNoreturn)
        .prototyped (.flag true))
      fd.func.returnValues with
  | none => rw [hret] at hupd; cases hupd
  | some e5 =>
    rw [hret] at hupd
    replace hupd :
        (match anvillParamsStep tm e5 fd.func.parameters with
         | none => none
         | some e6 => some (e6, eraseA data addr)) = some (e', d') := hupd
    cases hpar : anvillParamsStep tm e5 fd.func.parameters with
    | none => rw [hpar] at hupd; cases hupd
    | some e6 =>
      rw [hpar, Option.some_inj, Prod.mk.injEq] at hupd
      obtain ⟨he6, _⟩ := hupd
      subst he6
      rw [attrs_anvillParamsStep tm e5 _ _ hpar,
        getA_anvillRetStep_ne tm _ _ e5 .name hret (by decide),
        getA_setAttrD_ne _ .prototyped _ .name (by decide),
        getA_anvillNoretStep_ne _ _ .name (by decide),
        getA_anvillRetAddrStep_ne _ _ .name (by decide)]
      exact getA_nameStep_name e fd.name "FUN_" addr

theorem updateVar_eq (e : DEntry) (varData : List (Nat × VarRef))
    (tm : List (DwarfType × Nat)) (loc : AttrVal) (p : Nat × VarRef)
    (hloc : getA e.attrs .location = some loc)
    (hfind : varData.find? (fun q => addrToAttr q.1 = loc) = some p) :
    updateVar e varData tm =
      (match lookupTM tm (anvillToDwarf p.2.var.type) with
       | some i => some (setAttrD (nameStep e p.2.name "VAR_" p.2.var.address)
           .typeRef (.unitRef i), eraseA varData p.1)
       | none => none) := by
  simp [updateVar, hloc, hfind]

theorem updateVar_name (e : DEntry) (varData : List (Nat × VarRef))
    (tm : List (DwarfType × Nat)) (loc : AttrVal) (p : Nat × VarRef) (e' : DEntry)
    (d' : List (Nat × VarRef))
    (hloc : getA e.attrs .location = some loc)
    (hfind : varData.find? (fun q => addrToAttr q.1 = loc) = some p)
    (hupd : updateVar e varData tm = some (e', d')) :
    getA e'.attrs .name =
      (match getA e.attrs .name, p.2.name with
       | none, none => some (.str ("VAR_" ++ hexPad8 p.2.var.address))
       | some v, none => some v
       | _, some nm => some (.str nm)) := by
  rw [updateVar_eq e varData tm loc p hloc hfind] at hupd
  cases hlk : lookupTM tm (anvillToDwarf p.2.var.type) with
  | none => rw [hlk] at hupd; cases hupd
  | some i =>
    rw [hlk, Option.some_inj, Prod.mk.injEq] at hupd
    obtain ⟨he', _⟩ := hupd
    subst he'
    rw [getA_setAttrD_ne _ .typeRef _ .name (by decide)]
    exact getA_nameStep_name e p.2.name "VAR_" p.2.var.address

/-- C7: the name update rule.  For a subprogram updated from an anvill
record: a name in the record overwrites the entry's name; with no record
name an existing entry name is kept; with neither, the name becomes
`FUN_` followed by the address as eight (zero-padded) lowercase hex
digits.  The same holds for variables with the `VAR_` prefix and the
record's address.  Concretely, address `0x1000` synthesizes
`FUN_00001000`. -/
theorem c7_name_update_rule :
    (∀ (e : DEntry) (data : List (Nat × FunctionRef)) (tm : List (DwarfType × Nat))
       (addr : Nat) (fd : FunctionRef) (e' : DEntry) (d' : List (Nat × FunctionRef)),
      getA e.attrs .lowPc = some (.addr addr) →
      lookupA data addr = some fd →
      updateAnvillFn e data tm = some (e', d') →
      ((∀ n, fd.name = some n → getA e'.attrs .name = some (.str n)) ∧
       (∀ v, fd.name = none → getA e.attrs .name = some v →
         getA e'.attrs .name = some v) ∧
       (fd.name = none → getA e.attrs .name = none →
         getA e'.attrs .name = some (.str ("FUN_" ++ hexPad8 addr))))) ∧
    (∀ (e : DEntry) (varData : List (Nat × VarRef)) (tm : List (DwarfType × Nat))
       (loc : AttrVal) (p : Nat × VarRef) (e' : DEntry) (d' : List (Nat × VarRef)),
      getA e.attrs .location = some loc →
      varData.find? (fun q => addrToAttr q.1 = loc) = some p →
      updateVar e varData tm = some (e', d') →
      ((∀ n, p.2.name = some n → getA e'.attrs .name = some (.str n)) ∧
       (∀ v, p.2.name = none → getA e.attrs .name = some v →
         getA e'.attrs .name = some v) ∧
       (p.2.name = none → getA e.attrs .name = none →
         getA e'.attrs .name = some (.str ("VAR_" ++ hexPad8 p.2.var.address))))) ∧
    "FUN_" ++ hexPad8 4096 = "FUN_00001000" := by
  refine ⟨?_, ?_, by decide⟩
  · intro e data tm addr fd e' d' hlow hl hupd
    have hmain := updateAnvillFn_name e data tm addr fd e' d' hlow hl hupd
    refine ⟨fun n hn => ?_, fun v hn hv => ?_, fun hn hv => ?_⟩
    · rw [hmain, hn]
      cases getA e.attrs .name <;> rfl
    · rw [hmain, hn, hv]
    · rw [hmain, hn, hv]
  · intro e varData tm loc p e' d' hloc hfind hupd
    have hmain := updateVar_name e varData tm loc p e' d' hloc hfind hupd
    refine ⟨fun n hn => ?_, fun v hn hv => ?_, fun hn hv => ?_⟩
    · rw [hmain, hn]
      cases getA e.attrs .name <;> rfl
    · rw [hmain, hn, hv]
    · rw [hmain, hn, hv]

/-- C7 witness: an anvill record with no name on an entry with no name at
address `0x1000` synthesizes `FUN_00001000`. -/
theorem c7_name_update_rule_witness :
    getA (DEntry.mk .subprogram [(.lowPc, .addr 4096)] []).attrs .lowPc
      = some (.addr 4096) ∧
    updateAnvillFn ⟨.subprogram, [(.lowPc, .addr 4096)], []⟩
        [(4096, ⟨⟨4096, none, none, none, none, none, none, none⟩, none⟩)] []
      = some (⟨.subprogram,
          [(.prototyped, .flag true), (.name, .str "FUN_00001000"), (.lowPc, .addr 4096)],
          []⟩, []) ∧
    getA (DEntry.mk .subprogram
        [(.prototyped, .flag true), (.name, .str "FUN_00001000"), (.lowPc, .addr 4096)]
        []).attrs .name
      = some (.str ("FUN_" ++ hexPad8 4096)) :=
  ⟨by decide, by decide,
   (c7_name_update_rule.1 ⟨.subprogram, [(.lowPc, .addr 4096)], []⟩
     [(4096, ⟨⟨4096, none, none, none, none, none, none, none⟩, none⟩)] [] 4096
     ⟨⟨4096, none, none, none, none, none, none, none⟩, none⟩
     ⟨.subprogram,
       [(.prototyped, .flag true), (.name, .str "FUN_00001000"), (.lowPc, .addr 4096)], []⟩
     [] (by decide) (by decide) (by decide)).2.2 rfl (by decide)⟩

theorem updateAnvillFn_prototyped (e : DEntry) (data : List (Nat × FunctionRef))
    (tm : List (DwarfType × Nat)) (addr : Nat) (fd : FunctionRef) (e' : DEntry)
    (d' : List (Nat × FunctionRef))
    (hlow : getA e.attrs .lowPc = some (.addr addr))
    (hl : lookupA data addr = some fd)
    (hupd : updateAnvillFn e data tm = some (e', d')) :
    getA e'.attrs .prototyped = some (.flag true) := by
  rw [updateAnvillFn_eq e data tm addr fd hlow hl] at hupd
  cases hret : anvillRetStep tm
      (setAttrD
        (anvillNoretStep
          (anvillRetAddrStep (nameStep e fd.name "FUN_" addr) fd.func.returnAddress)
          fd.func.isNoreturn)
        .prototyped (.flag true))
      fd.func.returnValues with
  | none => rw [hret] at hupd; cases hupd
  | some e5 =>
    rw [hret] at hupd
    replace hupd :
        (match anvillParamsStep tm e5 fd.func.parameters with
         | none => none
         | some e6 => some (e6, eraseA data addr)) = some (e', d') := hupd
    cases hpar : anvillParamsStep tm e5 fd.func.parameters with
    | none => rw [hpar] at hupd; cases hupd
    | some e6 =>
      rw [hpar, Option.some_inj, Prod.mk.injEq] at hupd
      obtain ⟨he6, _⟩ := hupd
      subst he6
      rw [attrs_anvillParamsStep tm e5 _ _ hpar,
        getA_anvillRetStep_ne tm _ _ e5 .prototyped hret (by decide)]
      exact getA_setA_self _ .prototyped (.flag true)

theorem updateStrFn_prototyped (e : DEntry) (data : List (Nat × StrFunction))
    (tm : List (DwarfType × Nat)) (addr : Nat) (fd : StrFunction) (e' : DEntry)
    (d' : List (Nat × StrFunction))
    (hlow : getA e.attrs .lowPc = some (.addr addr))
    (hl : lookupA data addr = some fd)
    (hupd : updateStrFn e data tm = some (e', d')) :
    getA e'.attrs .prototyped = getA e.attrs .prototyped := by
  rw [updateStrFn_eq e data tm addr fd hlow hl] at hupd
  cases hpar : strParamsStep tm
      (strLineStep (strFileStep (nameStep e fd.symbolName "FUN_" addr) (strFile fd))
        (strLine fd))
      (strParameters fd) with
  | none => rw [hpar] at hupd; cases hupd
  | some e4 =>
    rw [hpar] at hupd
    replace hupd :
        (match strLocalsStep tm e4 (strLocalVars fd) with
         | none => none
         | some e5 => some (e5, eraseA data addr)) = some (e', d') := hupd
    cases hloc : strLocalsStep tm e4 (strLocalVars fd) with
    | none => rw [hloc] at hupd; cases hupd
    | some e5 =>
      rw [hloc, Option.some_inj, Prod.mk.injEq] at hupd
      obtain ⟨he5, _⟩ := hupd
      subst he5
      rw [attrs_strLocalsStep tm e4 _ _ hloc, attrs_strParamsStep tm _ _ _ hpar,
        getA_strLineStep_ne _ _ .prototyped (by decide),
        getA_strFileStep_ne _ _ .prototyped (by decide),
        getA_nameStep_ne _ _ _ _ .prototyped (by decide)]

/-- C8 counterexample: an anvill record that supplies no parameter list
still gets `prototyped = true` from the update, contradicting the claim
that the flag is not set when the record supplies no parameters. -/
theorem c8_prototyped_counterexample :
    (FunctionRef.mk ⟨4096, none, none, none, none, none, none, none⟩ none).func.parameters
      = none ∧
    updateAnvillFn ⟨.subprogram, [(.lowPc, .addr 4096)], []⟩
        [(4096, ⟨⟨4096, none, none, none, none, none, none, none⟩, none⟩)] []
      = some (⟨.subprogram,
          [(.prototyped, .flag true), (.name, .str "FUN_00001000"), (.lowPc, .addr 4096)],
          []⟩, []) ∧
    getA (DEntry.mk .subprogram
        [(.prototyped, .flag true), (.name, .str "FUN_00001000"), (.lowPc, .addr 4096)]
        []).attrs .prototyped
      = some (.flag true) := by
  exact ⟨rfl, by decide, by decide⟩

/-- C8, as the code implements it: the anvill update sets the prototyped
flag to true on every matched record, whether or not the record supplies a
parameter list, and the BSI update never sets the flag at all (it is left
exactly as it was on the entry), even when the BSI record does supply
parameters. -/
theorem c8_prototyped_flag :
    (∀ (e : DEntry) (data : List (Nat × FunctionRef)) (tm : List (DwarfType × Nat))
       (addr : Nat) (fd : FunctionRef) (e' : DEntry) (d' : List (Nat × FunctionRef)),
      getA e.attrs .lowPc = some (.addr addr) →
      lookupA data addr = some fd →
      updateAnvillFn e data tm = some (e', d') →
      getA e'.attrs .prototyped = some (.flag true)) ∧
    (∀ (e : DEntry) (data : List (Nat × StrFunction)) (tm : List (DwarfType × Nat))
       (addr : Nat) (fd : StrFunction) (e' : DEntry) (d' : List (Nat × StrFunction)),
      getA e.attrs .lowPc = some (.addr addr) →
      lookupA data addr = some fd →
      updateStrFn e data tm = some (e', d') →
      getA e'.attrs .prototyped = getA e.attrs .prototyped) :=
  ⟨fun e data tm addr fd e' d' hlow hl hupd =>
    updateAnvillFn_prototyped e data tm addr fd e' d' hlow hl hupd,
   fun e data tm addr fd e' d' hlow hl hupd =>
    updateStrFn_prototyped e data tm addr fd e' d' hlow hl hupd⟩

/-- C8 witness: the anvill update on a record without parameters. -/
theorem c8_prototyped_flag_witness :
    getA (DEntry.mk .subprogram [(.lowPc, .addr 4096)] []).attrs .lowPc
      = some (.addr 4096) ∧
    getA (DEntry.mk .subprogram
        [(.prototyped, .flag true), (.name, .str "FUN_00001000"), (.lowPc, .addr 4096)]
        []).attrs .prototyped = some (.flag true) :=
  ⟨by decide,
   c8_prototyped_flag.1 ⟨.subprogram, [(.lowPc, .addr 4096)], []⟩
     [(4096, ⟨⟨4096, none, none, none, none, none, none, none⟩, none⟩)] [] 4096
     ⟨⟨4096, none, none, none, none, none, none, none⟩, none⟩
     ⟨.subprogram,
       [(.prototyped, .flag true), (.name, .str "FUN_00001000"), (.lowPc, .addr 4096)], []⟩
     [] (by decide) (by decide) (by decide)⟩

/-! ## Symbol reconciliation (`ELF::update_binary`, `src/elf.rs`) -/

/-- Symbol kinds (`SymbolFlag`, `src/symbols.rs`). -/
inductive SymKind where
  | function
  | object
  deriving DecidableEq

/-- A hint symbol collected by the reconciler (`Symbol`,
`src/symbols.rs`). -/
structure HintSymbol where
  name : String
  value : Nat
  flags : SymKind
  deriving DecidableEq

/-- The objcopy operations `update_binary` assembles. -/
inductive SymOp where
  | addSymbol (name : String) (value : Nat) (flags : SymKind)
  | redefineSym (oldName newName : String)
  | stripSymbol (name : String)
  deriving DecidableEq

/-- "If an existing symbol has a matching address, find its name"
(`src/elf.rs`): first existing symbol whose address equals the hint's
value. -/
def addrExists (existing : List (String × Nat)) (s : HintSymbol) : Option String :=
  (existing.find? (fun p => p.2 = s.value)).map Prod.fst

/-- "If an existing symbol has a matching name, find its address"
(`src/elf.rs`). -/
def nameExists (existing : List (String × Nat)) (s : HintSymbol) : Option Nat :=
  (existing.find? (fun p => p.1 = s.name)).map Prod.snd

/-- The per-symbol classification of `ELF::update_binary` (`src/elf.rs`):
the four-way match on `(addr_exists, name_exists)`.  In the
`(Some, Some)` arm the source `assert!`s that both the name and the
address match; a failed assertion aborts the process, modelled as
`none`. -/
def classifySymbol (existing : List (String × Nat)) (s : HintSymbol) : Option (List SymOp) :=
  match addrExists existing s, nameExists existing s with
  | none, none => some [.addSymbol s.name s.value s.flags]
  | some oldName, none => some [.redefineSym oldName s.name]
  | none, some _ => some [.stripSymbol s.name, .addSymbol s.name s.value s.flags]
  | some existingName, some existingAddr =>
    if existingName = s.name then
      if existingAddr = s.value then some [] else none
    else none

/-- The symbol-update loop of `ELF::update_binary`: the snapshot of
existing symbols is taken once, before the loop, and every hint symbol is
classified against that same snapshot, accumulating the objcopy arguments
in order. -/
def updateBinarySymbols (existing : List (String × Nat)) :
    List HintSymbol → Option (List SymOp)
  | [] => some []
  | s :: rest =>
    match classifySymbol existing s with
    | some ops => (updateBinarySymbols existing rest).map (fun more => ops ++ more)
    | none => none

/-- C5 counterexample: existing symbols `foo@0x3000` and `bar@0x4000`,
hint symbol `bar@0x3000`.  The address `0x3000` exists under the
different name `foo`, so the claim prescribes a single rename; but the
name `bar` also exists (at `0x4000`), so the code takes the
`(Some, Some)` arm and its `assert!(existing_name == s.name)` fails — the
run panics and emits nothing. -/
theorem c5_symbol_classification_counterexample :
    addrExists [("foo", 12288), ("bar", 16384)] ⟨"bar", 12288, .function⟩ = some "foo" ∧
    updateBinarySymbols [("foo", 12288), ("bar", 16384)] [⟨"bar", 12288, .function⟩]
      = none ∧
    updateBinarySymbols [("foo", 12288), ("bar", 16384)] [⟨"bar", 12288, .function⟩]
      ≠ some [.redefineSym "foo" "bar"] := by
  refine ⟨by decide, by decide, by decide⟩

/-- C5, as the code implements it: classification is by the pair
(first existing symbol with the hint's address, first existing symbol
with the hint's name).  Neither found: `add`.  Address found under
`oldName`, name not found anywhere: `rename oldName → name`.  Name found
(at whatever address), address not found: `strip` then `add`.  Both
found: a no-op when they are exactly the hint's own name and address, and
a panic (failed `assert!`) otherwise — in particular when the address
exists under a different name while the name also exists at a different
address, no rename is emitted.  In the scenario of an existing `foo` at
the hint's address with the hint's name `bar` not existing anywhere, the
delta is exactly one `redefine-sym foo=bar`. -/
theorem c5_symbol_classification (existing : List (String × Nat)) (s : HintSymbol) :
    (addrExists existing s = none → nameExists existing s = none →
      classifySymbol existing s = some [.addSymbol s.name s.value s.flags]) ∧
    (∀ oldName, addrExists existing s = some oldName → nameExists existing s = none →
      classifySymbol existing s = some [.redefineSym oldName s.name]) ∧
    (∀ a, addrExists existing s = none → nameExists existing s = some a →
      classifySymbol existing s
        = some [.stripSymbol s.name, .addSymbol s.name s.value s.flags]) ∧
    (∀ n a, addrExists existing s = some n → nameExists existing s = some a →
      (n = s.name ∧ a = s.value → classifySymbol existing s = some []) ∧
      (¬ (n = s.name ∧ a = s.value) → classifySymbol existing s = none)) ∧
    (updateBinarySymbols existing [s]
      = (classifySymbol existing s).map (fun ops => ops ++ [])) := by
  refine ⟨?_, ?_, ?_, ?_, ?_⟩
  · intro h1 h2
    simp [classifySymbol, h1, h2]
  · intro oldName h1 h2
    simp [classifySymbol, h1, h2]
  · intro a h1 h2
    simp [classifySymbol, h1, h2]
  · intro n a h1 h2
    constructor
    · intro ⟨hn, ha⟩
      simp [classifySymbol, h1, h2, hn, ha]
    · intro hno
      by_cases hn : n = s.name
      · have ha : ¬ a = s.value := fun ha => hno ⟨hn, ha⟩
        simp [classifySymbol, h1, h2, hn, ha]
      · simp [classifySymbol, h1, h2, hn]
  · cases hc : classifySymbol existing s <;>
      simp [updateBinarySymbols, hc]

/-- C5 witness: the spec's own scenario S6 — existing `foo@0x3000`, hint
`bar@0x3000`, name `bar` absent — yields exactly one rename. -/
theorem c5_symbol_classification_witness :
    addrExists [("foo", 12288)] ⟨"bar", 12288, .function⟩ = some "foo" ∧
    nameExists [("foo", 12288)] ⟨"bar", 12288, .function⟩ = none ∧
    classifySymbol [("foo", 12288)] ⟨"bar", 12288, .function⟩
      = some [.redefineSym "foo" "bar"] :=
  ⟨by decide, by decide,
   (c5_symbol_classification [("foo", 12288)] ⟨"bar", 12288, .function⟩).2.1 "foo"
     (by decide) (by decide)⟩

/-! ## BSI ingestion (`StrBsiInput::data` / `types`, `src/str_bsi/mod.rs`) -/

/-- A BSI input file: functions keyed by address strings. -/
structure StrBsiInput where
  functions : List (String × StrFunction)
  deriving DecidableEq

/-- The confidence the ingest attributes to an entry:
`f.source_match.as_ref().map(|sm| sm.confidence).unwrap_or(0)` — an entry
without a source match counts as confidence 0. -/
def bsiConfidence (f : StrFunction) : Nat :=
  (f.sourceMatch.map SourceMatch.confidence).getD 0

/-- The function-map construction of `StrBsiInput::data`
(`src/str_bsi/mod.rs`): drop an entry when `use_all_entries` is not set
and its confidence is not 1; otherwise parse the address (an unparseable
address is a `panic!`, hence `none` for the whole map). -/
def bsiFnMap (useAllEntries : Bool) : List (String × StrFunction) →
    Option (List (Nat × StrFunction))
  | [] => some []
  | (addr, f) :: rest =>
    if ¬ useAllEntries ∧ bsiConfidence f ≠ 1 then bsiFnMap useAllEntries rest
    else
      match parseAddrStr addr with
      | some a => (bsiFnMap useAllEntries rest).map (fun m => (a, f) :: m)
      | none => none

/-- `SourceMatch::types` (`src/str_bsi/mod.rs`): the types of the
parameters, then of the local variables, then of the return value. -/
def smTypes (sm : SourceMatch) : List String :=
  (match sm.parameters with
   | some ps => ps.filterMap (fun p => p.2.type)
   | none => []) ++
  (match sm.localVariables with
   | some vs => vs.filterMap (fun p => p.2.type)
   | none => []) ++
  (match sm.returnValue with
   | some t => [t]
   | none => [])

/-- The collection loop of `StrBsiInput::types` (`src/str_bsi/mod.rs`),
before the final sort and dedup: entries without a source match
contribute nothing, and when `use_all_entries` is not set an entry whose
source-match confidence is not 1 is skipped. -/
def bsiTypesRaw (useAllEntries : Bool) : List (String × StrFunction) → List String
  | [] => []
  | (_, f) :: rest =>
    (match f.sourceMatch with
     | some sm => if ¬ useAllEntries ∧ sm.confidence ≠ 1 then [] else smTypes sm
     | none => []) ++ bsiTypesRaw useAllEntries rest

/-- The `types.sort(); types.dedup();` of `StrBsiInput::types`. -/
def sortDedup (l : List String) : List String :=
  (List.insertionSort (fun a b => a ≤ b) l).dedup

/-- `StrBsiInput::types` (`src/str_bsi/mod.rs`). -/
def bsiTypes (useAllEntries : Bool) (fns : List (String × StrFunction)) : List String :=
  sortDedup (bsiTypesRaw useAllEntries fns)

/-- `StrBsiInput::data` (`src/str_bsi/mod.rs`): the function map and the
converted type list (`DwarfType::from` can panic, hence the option). -/
def bsiData (useAllEntries : Bool) (inp : StrBsiInput) :
    Option (List (Nat × StrFunction) × List DwarfType) :=
  match bsiFnMap useAllEntries inp.functions with
  | none => none
  | some m =>
    match mapOpt strToDwarf (bsiTypes useAllEntries inp.functions) with
    | some ts => some (m, ts)
    | none => none

theorem bsiFnMap_mem (useAll : Bool) :
    ∀ (fns : List (String × StrFunction)) (m : List (Nat × StrFunction)),
      bsiFnMap useAll fns = some m →
      ∀ (a : Nat) (f : StrFunction),
        ((a, f) ∈ m ↔ ∃ s, (s, f) ∈ fns ∧ parseAddrStr s = some a ∧
          (useAll = true ∨ bsiConfidence f = 1)) := by
  intro fns
  induction fns with
  | nil =>
    intro m h a f
    simp [bsiFnMap] at h
    subst h
    simp
  | cons p rest ih =>
    intro m h a f
    obtain ⟨s, g⟩ := p
    rw [bsiFnMap] at h
    by_cases hcond : ¬ useAll = true ∧ ¬ bsiConfidence g = 1
    · rw [if_pos hcond] at h
      rw [ih m h a f]
      constructor
      · rintro ⟨s', hs', hp, hc⟩
        exact ⟨s', List.mem_cons_of_mem _ hs', hp, hc⟩
      · rintro ⟨s', hs', hp, hc⟩
        rcases List.mem_cons.mp hs' with heq | htail
        · obtain ⟨rfl, rfl⟩ := Prod.mk.injEq s' f s g ▸ heq
          rcases hc with hc | hc
          · exact absurd hc hcond.1
          · exact absurd hc hcond.2
        · exact ⟨s', htail, hp, hc⟩
    · rw [if_neg hcond] at h
      have hc : useAll = true ∨ bsiConfidence g = 1 := by
        by_cases hu : useAll = true
        · exact Or.inl hu
        · refine Or.inr ?_
          by_contra hg
          exact hcond ⟨hu, hg⟩
      cases hp : parseAddrStr s with
      | none => rw [hp] at h; cases h
      | some a0 =>
        rw [hp] at h
        cases hrest : bsiFnMap useAll rest with
        | none => rw [hrest] at h; cases h
        | some m0 =>
          rw [hrest] at h
          simp at h
          subst h
          constructor
          · intro hm
            rcases List.mem_cons.mp hm with heq | htail
            · obtain ⟨rfl, rfl⟩ := Prod.mk.injEq a f a0 g ▸ heq
              exact ⟨s, List.mem_cons_self _ _, hp, hc⟩
            · obtain ⟨s', hs', hp', hc'⟩ := (ih m0 hrest a f).mp htail
              exact ⟨s', List.mem_cons_of_mem _ hs', hp', hc'⟩
          · rintro ⟨s', hs', hp', hc'⟩
            rcases List.mem_cons.mp hs' with heq | htail
            · obtain ⟨rfl, rfl⟩ := Prod.mk.injEq s' f s g ▸ heq
              have haa : a0 = a := by
                rw [hp] at hp'
                injection hp'
              subst haa
              exact List.mem_cons_self _ _
            · exact List.mem_cons_of_mem _ ((ih m0 hrest a f).mpr ⟨s', htail, hp', hc'⟩)

theorem bsiTypesRaw_mem (useAll : Bool) :
    ∀ (fns : List (String × StrFunction)) (t : String),
      (t ∈ bsiTypesRaw useAll fns ↔ ∃ p ∈ fns, ∃ sm,
        (p : String × StrFunction).2.sourceMatch = some sm ∧
        (useAll = true ∨ sm.confidence = 1) ∧ t ∈ smTypes sm) := by
  intro fns
  induction fns with
  | nil => intro t; simp [bsiTypesRaw]
  | cons p rest ih =>
    intro t
    obtain ⟨s, g⟩ := p
    rw [bsiTypesRaw, List.mem_append, ih]
    constructor
    · rintro (hhead | ⟨q, hq, sm, hsm, hc, ht⟩)
      · cases hg : g.sourceMatch with
        | none => rw [hg] at hhead; cases hhead
        | some sm =>
          rw [hg] at hhead
          replace hhead :
              t ∈ (if ¬ useAll = true ∧ sm.confidence ≠ 1 then [] else smTypes sm) := hhead
          by_cases hcond : ¬ useAll = true ∧ sm.confidence ≠ 1
          · rw [if_pos hcond] at hhead
            cases hhead
          · rw [if_neg hcond] at hhead
            have hc : useAll = true ∨ sm.confidence = 1 := by
              by_cases hu : useAll = true
              · exact Or.inl hu
              · refine Or.inr ?_
                by_contra hgc
                exact hcond ⟨hu, hgc⟩
            exact ⟨(s, g), List.mem_cons_self _ _, sm, hg, hc, hhead⟩
      · exact ⟨q, List.mem_cons_of_mem _ hq, sm, hsm, hc, ht⟩
    · rintro ⟨q, hq, sm, hsm, hc, ht⟩
      rcases List.mem_cons.mp hq with rfl | htail
      · refine Or.inl ?_
        have hsm' : g.sourceMatch = some sm := hsm
        rw [hsm']
        show t ∈ (if ¬ useAll = true ∧ sm.confidence ≠ 1 then [] else smTypes sm)
        have hcond : ¬ (¬ useAll = true ∧ sm.confidence ≠ 1) := by
          rintro ⟨hu, hgc⟩
          rcases hc with hc | hc
          · exact hu hc
          · exact hgc hc
        rw [if_neg hcond]
        exact ht
      · exact Or.inr ⟨q, htail, sm, hsm, hc, ht⟩

/-- C6: the BSI ingest filters by confidence.  With `use_all_entries`
unset, an entry contributes to the function map exactly when its
source-match confidence equals 1 (an entry without a source match counts
as confidence 0 and is dropped), and only such entries contribute their
types to the type list; with `use_all_entries` set, every entry is
ingested.  Sorting and deduplication do not change which types are in the
list. -/
theorem c6_bsi_confidence_filter (useAll : Bool) (fns : List (String × StrFunction))
    (m : List (Nat × StrFunction)) (h : bsiFnMap useAll fns = some m) :
    (∀ (a : Nat) (f : StrFunction),
      ((a, f) ∈ m ↔ ∃ s, (s, f) ∈ fns ∧ parseAddrStr s = some a ∧
        (useAll = true ∨ bsiConfidence f = 1))) ∧
    (∀ t : String,
      (t ∈ bsiTypesRaw useAll fns ↔ ∃ p ∈ fns, ∃ sm,
        (p : String × StrFunction).2.sourceMatch = some sm ∧
        (useAll = true ∨ sm.confidence = 1) ∧ t ∈ smTypes sm)) ∧
    (∀ t : String, t ∈ bsiTypes useAll fns ↔ t ∈ bsiTypesRaw useAll fns) := by
  refine ⟨bsiFnMap_mem useAll fns m h, bsiTypesRaw_mem useAll fns, fun t => ?_⟩
  rw [bsiTypes, sortDedup, List.mem_dedup]
  exact (List.perm_insertionSort _ (bsiTypesRaw useAll fns)).mem_iff

/-- C6 witness: two entries, confidence 1 at `0x10` and confidence 0 at
`0x20`; without `use_all_entries` only the confidence-1 entry is
ingested. -/
theorem c6_bsi_confidence_filter_witness :
    bsiFnMap false
        [("0x10", ⟨some "fa", none, [], [], some ⟨1, none, none, "fa", none, none, none⟩⟩),
         ("0x20", ⟨some "fb", none, [], [], some ⟨0, none, none, "fb", none, none, none⟩⟩)]
      = some [(16, ⟨some "fa", none, [], [], some ⟨1, none, none, "fa", none, none, none⟩⟩)] ∧
    (∀ (a : Nat) (f : StrFunction),
      ((a, f) ∈ [(16, (⟨some "fa", none, [], [], some ⟨1, none, none, "fa", none, none,
            none⟩⟩ : StrFunction))] ↔
        ∃ s, (s, f) ∈
          [("0x10", (⟨some "fa", none, [], [],
             some ⟨1, none, none, "fa", none, none, none⟩⟩ : StrFunction)),
           ("0x20", ⟨some "fb", none, [], [], some ⟨0, none, none, "fb", none, none, none⟩⟩)]
          ∧ parseAddrStr s = some a ∧ (false = true ∨ bsiConfidence f = 1))) :=
  ⟨by decide,
   (c6_bsi_confidence_filter false
     [("0x10", ⟨some "fa", none, [], [], some ⟨1, none, none, "fa", none, none, none⟩⟩),
      ("0x20", ⟨some "fb", none, [], [], some ⟨0, none, none, "fb", none, none, none⟩⟩)]
     [(16, ⟨some "fa", none, [], [], some ⟨1, none, none, "fa", none, none, none⟩⟩)]
     (by decide)).1⟩

/-- C10: the BSI data ingestion panics, rather than returning an error
value, on a well-formed input whose retained function map holds an
address key that is neither `0x`-prefixed hexadecimal nor decimal: with
key `"0xZZ"` at confidence 1 the entry passes the filter, the address
parse fails, and `data` hits its `unwrap_or_else(panic!)` branch
(modelled as `none`). -/
theorem c10_bsi_addr_parse_panics :
    bsiConfidence ⟨some "f", none, [], [], some ⟨1, none, none, "f", none, none, none⟩⟩
      = 1 ∧
    parseAddrStr "0xZZ" = none ∧
    bsiData false ⟨[("0xZZ",
        ⟨some "f", none, [], [], some ⟨1, none, none, "f", none, none, none⟩⟩)]⟩
      = none := by
  exact ⟨by decide, by decide, by decide⟩

/-! ## Anvill hint-map construction (`src/anvill/mod.rs`) and the symbol
delta (`src/symbols.rs`) -/

/-- `Symbol` (`src/anvill/mod.rs`). -/
structure AnvSymbol where
  address : Nat
  name : String
  deriving DecidableEq

/-- `AnvillInput` (`src/anvill/mod.rs`): the three optional sections the
map construction consults.  The `arch`, `os` and `memory` fields are
omitted from the model: none of the embedded functions read them. -/
structure AnvillInput where
  functions : Option (List AnvillFunction)
  varsSec : Option (List AnvillVariable)
  symbols : Option (List AnvSymbol)

/-- `AnvillInput::functions` (`src/anvill/mod.rs`): builds the address
map only when both the `functions` and the `symbols` sections are
present; otherwise the map is empty and every record is silently
ignored.  Each function's name is the name of the first symbol at its
address, if any. -/
def anvillFunctions (inp : AnvillInput) : List (Nat × FunctionRef) :=
  match inp.functions, inp.symbols with
  | some funcs, some syms =>
    funcs.foldl (fun res func =>
      insertA res func.address
        ⟨func, (syms.find? (fun sym => sym.address = func.address)).map AnvSymbol.name⟩) []
  | _, _ => []

/-- `AnvillInput::variables` (`src/anvill/mod.rs`). -/
def anvillVariables (inp : AnvillInput) : List (Nat × VarRef) :=
  match inp.varsSec, inp.symbols with
  | some vars, some syms =>
    vars.foldl (fun res v =>
      insertA res v.address
        ⟨v, (syms.find? (fun sym => sym.address = v.address)).map AnvSymbol.name⟩) []
  | _, _ => []

/-- `Symbols::add_anvill` (`src/symbols.rs`): push an `object` symbol per
named variable record and then a `function` symbol per named function
record. -/
def symbolsAddAnvill (syms : List HintSymbol) (varMap : List (Nat × VarRef))
    (fnMap : List (Nat × FunctionRef)) : List HintSymbol :=
  (syms ++ varMap.filterMap (fun p => p.2.name.map (fun n => ⟨n, p.1, .object⟩)))
    ++ fnMap.filterMap (fun p => p.2.name.map (fun n => ⟨n, p.1, .function⟩))

/-- C9: an anvill input without a `symbols` section produces empty
function and variable maps — every function and variable hint in it is
silently ignored: the update pass leaves every subprogram entry unchanged
(and, with no remaining map entries, creates no new entries), and the
symbol delta gets no contribution.  Likewise an absent `functions`
section empties the function map and an absent `variables` section
empties the variable map. -/
theorem c9_absent_sections_ignored :
    (∀ inp : AnvillInput, inp.symbols = none →
      anvillFunctions inp = [] ∧ anvillVariables inp = [] ∧
      (∀ syms, symbolsAddAnvill syms (anvillVariables inp) (anvillFunctions inp) = syms) ∧
      (∀ (e : DEntry) (tm : List (DwarfType × Nat)) (addr : Nat),
        getA e.attrs .lowPc = some (.addr addr) →
        updateAnvillFn e (anvillFunctions inp) tm = some (e, []))) ∧
    (∀ inp : AnvillInput, inp.functions = none → anvillFunctions inp = []) ∧
    (∀ inp : AnvillInput, inp.varsSec = none → anvillVariables inp = []) := by
  refine ⟨?_, ?_, ?_⟩
  · intro inp hsym
    have hf : anvillFunctions inp = [] := by
      cases hff : inp.functions <;> simp [anvillFunctions, hff, hsym]
    have hv : anvillVariables inp = [] := by
      cases hvv : inp.varsSec <;> simp [anvillVariables, hvv, hsym]
    refine ⟨hf, hv, fun syms => ?_, fun e tm addr hlow => ?_⟩
    · rw [hf, hv]
      simp [symbolsAddAnvill]
    · rw [hf]
      simp [updateAnvillFn, hlow, lowPcToU64, lookupA]
  · intro inp hfn
    cases hs : inp.symbols <;> simp [anvillFunctions, hfn, hs]
  · intro inp hvar
    cases hs : inp.symbols <;> simp [anvillVariables, hvar, hs]

/-- C9 witness: an input with a well-formed function and variable but no
`symbols` section. -/
theorem c9_absent_sections_ignored_witness :
    (AnvillInput.mk (some [⟨4096, none, none, none, none, none, none, none⟩])
        (some [⟨.bool, 8192⟩]) none).symbols = none ∧
    (anvillFunctions ⟨some [⟨4096, none, none, none, none, none, none, none⟩],
        some [⟨.bool, 8192⟩], none⟩ = [] ∧
     anvillVariables ⟨some [⟨4096, none, none, none, none, none, none, none⟩],
        some [⟨.bool, 8192⟩], none⟩ = [] ∧
     (∀ syms, symbolsAddAnvill syms
        (anvillVariables ⟨some [⟨4096, none, none, none, none, none, none, none⟩],
          some [⟨.bool, 8192⟩], none⟩)
        (anvillFunctions ⟨some [⟨4096, none, none, none, none, none, none, none⟩],
          some [⟨.bool, 8192⟩], none⟩) = syms) ∧
     (∀ (e : DEntry) (tm : List (DwarfType × Nat)) (addr : Nat),
        getA e.attrs .lowPc = some (.addr addr) →
        updateAnvillFn e
          (anvillFunctions ⟨some [⟨4096, none, none, none, none, none, none, none⟩],
            some [⟨.bool, 8192⟩], none⟩) tm = some (e, []))) :=
  ⟨rfl,
   c9_absent_sections_ignored.1
     ⟨some [⟨4096, none, none, none, none, none, none, none⟩], some [⟨.bool, 8192⟩], none⟩
     rfl⟩

/-! ## The primitive size tables (C3) -/

/-- C3 counterexample: the spec's table gives `long-double = 12` and
`__float128 = 16`, but `CanonicalTypeName::size` has no arm for either
canonical name; both fall to the catch-all and return `None`. -/
theorem c3_primitive_size_counterexample :
    canonSize "long double" = none ∧ canonSize "__float128" = none := by
  exact ⟨by decide, by decide⟩

/-- C3, as the code implements it: `CanonicalTypeName::size` returns the
tabulated size for every canonical primitive except `long double` and
`__float128`, for which it returns `None` (only the anvill `Type::size`,
keyed by the one-letter codes, knows `long double = 12` and
`__float128 = 16`), and it returns `None` for every name outside its
alias table. -/
theorem c3_primitive_size_table :
    (canonSize "bool" = some 1 ∧ canonSize "int8_t" = some 1 ∧
     canonSize "uint8_t" = some 1 ∧ canonSize "int16_t" = some 2 ∧
     canonSize "uint16_t" = some 2 ∧ canonSize "int32_t" = some 4 ∧
     canonSize "uint32_t" = some 4 ∧ canonSize "int64_t" = some 8 ∧
     canonSize "uint64_t" = some 8 ∧ canonSize "int128_t" = some 16 ∧
     canonSize "uint128_t" = some 16 ∧ canonSize "float16_t" = some 2 ∧
     canonSize "float" = some 4 ∧ canonSize "double" = some 8 ∧
     canonSize "void" = some 0 ∧
     canonSize "long double" = none ∧ canonSize "__float128" = none ∧
     anvillSize (.primitive .D) = some 12 ∧ anvillSize (.primitive .Q) = some 16) ∧
    (∀ s : String, s ∉ sizeTable.map Prod.fst → canonSize s = none) := by
  refine ⟨by decide, ?_⟩
  intro s hs
  have hnone : sizeTable.find? (fun p => p.1 = s) = none := by
    rw [List.find?_eq_none]
    intro p hp
    simp only [decide_eq_true_eq]
    intro hps
    exact hs (hps ▸ List.mem_map_of_mem Prod.fst hp)
  rw [canonSize, hnone]
  rfl

/-- C3 witness: an unknown name is outside the table and has no size. -/
theorem c3_primitive_size_table_witness :
    "mystruct" ∉ sizeTable.map Prod.fst ∧ canonSize "mystruct" = none :=
  ⟨by decide,
   c3_primitive_size_table.2 "mystruct" (by decide)⟩
